import Mathlib

/-!
Verification of the snowglobe / webmap-archiver Tile Archive Engine.

This file gives a shallow embedding of the engine's core components and
proves (or refutes) the frozen claims about them:

* `tiles/pmtiles.py` — `PMTilesBuilder._ensure_gzipped` (double-compression
  prevention);
* `templates/serve.py` — the dependency-free `PMTilesReader` (`_read_header`,
  `_read_varint`, `_read_directory`, `_decompress`, `_find_tile`, `get_tile`,
  `_zxy_to_tile_id`);
* `tiles/fetcher.py` — `TileMath`, `CoverageAnalyzer`, `CoverageReport`,
  `TileFetcher`;
* `tiles/coverage.py` — `CoverageCalculator`;
* `tiles/layer_inspector.py` — the manual protobuf walk.

Bytes are modelled as `List ℕ` (each element one byte).  Python exceptions
are modelled as values (`Except` / `Option`).  The gzip codec (Python's
`gzip` module, external to the repository) is modelled abstractly as a
header-tagged identity coding that keeps exactly the properties the source
relies on: compressed output begins with the magic bytes `0x1f 0x8b`,
decompression inverts compression, and decompression fails on streams that
are not well formed.

The file is organised as definitions first, then all theorems.
-/

namespace Snowglobe

/-! ## Definitions -/

/-- Tile coordinate `(z, x, y)` — `TileCoord` from `tiles/detector.py` /
`tiles/coverage.py`. -/
structure TileCoord where
  z : ℕ
  x : ℕ
  y : ℕ
deriving DecidableEq, Repr

/-! ### Abstract model of the gzip codec

`gzip.compress`/`gzip.decompress` are Python standard-library functions,
external to the repository.  They are modelled as a header-tagged identity
coding: `gzipCompress` prepends the gzip magic `0x1f 0x8b` and the deflate
method byte `0x08`; `gzipDecompress` strips that header and fails on any
stream not produced this way.  This keeps every property of the codec that
the source code depends on. -/

/-- Magic bytes `0x1f 0x8b` that open every gzip stream. -/
def gzipMagic : List ℕ := [31, 139]

/-- Model of gzip compression: tag the payload with the gzip header. -/
def gzipCompress (data : List ℕ) : List ℕ := 31 :: 139 :: 8 :: data

/-- Model of `gzip.decompress`: succeeds exactly on well-formed streams. -/
def gzipDecompress (data : List ℕ) : Option (List ℕ) :=
  match data with
  | 31 :: 139 :: 8 :: rest => some rest
  | _ => none

/-- `PMTilesBuilder._ensure_gzipped` (`cli/src/webmap_archiver/tiles/pmtiles.py`,
lines 121–143): if the data already carries the gzip magic and decompresses,
return it unchanged; otherwise compress it. -/
def ensureGzipped (data : List ℕ) : List ℕ :=
  if 2 ≤ data.length ∧ data.take 2 = gzipMagic then
    match gzipDecompress data with
    | some _ => data
    | none => gzipCompress data
  else gzipCompress data

/-! ### The PMTiles reader (`templates/serve.py`) -/

/-- Python exceptions of the reader, as values. -/
inductive PyErr where
  | valueErr (msg : String)
  | structErr
deriving DecidableEq, Repr

/-- Message raised for compression code 2 when the brotli package is missing. -/
def brotliMissingMsg : String := "Brotli compression requires brotli package"

/-- Message raised for compression code 3 when the zstandard package is missing. -/
def zstdMissingMsg : String := "Zstd compression requires zstandard package"

/-- `PMTilesReader._decompress` (`serve.py` lines 82–104).  `brotliF` / `zstdF`
model the optional `brotli` / `zstandard` imports: `none` when the package is
unavailable (the `ImportError` branch).  Code 0 returns the data; code 1 tries
gzip and falls back to the raw data; any other unknown code returns the data
unchanged. -/
def pmDecompress (brotliF zstdF : Option (List ℕ → Except PyErr (List ℕ)))
    (data : List ℕ) (compression : ℕ) : Except PyErr (List ℕ) :=
  if compression = 0 ∨ compression = 0 then .ok data
  else if compression = 1 then
    match gzipDecompress data with
    | some d => .ok d
    | none => .ok data
  else if compression = 2 then
    match brotliF with
    | some f => f data
    | none => .error (.valueErr brotliMissingMsg)
  else if compression = 3 then
    match zstdF with
    | some f => f data
    | none => .error (.valueErr zstdMissingMsg)
  else .ok data

/-- Loop of `PMTilesReader._read_varint`, structurally recursive on the number
`data.length - pos` of bytes left (the loop consumes one byte per turn, so
that fuel is exact: it reaches 0 exactly when `pos` passes the end). -/
def readVarintAux (data : List ℕ) : ℕ → ℕ → ℕ → ℕ → ℕ × ℕ
  | 0, pos, result, _ => (result, pos)
  | fuel + 1, pos, result, shift =>
    if pos < data.length then
      let byte := data.getD pos 0
      let result' := result ||| ((byte &&& 0x7F) <<< shift)
      if byte &&& 0x80 = 0 then (result', pos + 1)
      else readVarintAux data fuel (pos + 1) result' (shift + 7)
    else (result, pos)

/-- `PMTilesReader._read_varint` (`serve.py` lines 106–117): read one varint
starting at `pos`, from accumulator `result` and shift `shift`; returns the
decoded value and the next position. -/
def readVarintS (data : List ℕ) (pos result shift : ℕ) : ℕ × ℕ :=
  readVarintAux data (data.length - pos) pos result shift

/-- One parsed directory entry (`serve.py` lines 164–182): `run_length = 0`
marks a pointer to a nested leaf directory. -/
inductive DirEntry where
  | tile (tileId runLength offset length : ℕ)
  | leaf (tileId offset length : ℕ)
deriving DecidableEq, Repr

/-- Read `n` delta-encoded tile ids (`serve.py` lines 132–138). -/
def readTileIds (data : List ℕ) : ℕ → ℕ → ℕ → List ℕ × ℕ
  | 0, pos, _ => ([], pos)
  | n + 1, pos, tid =>
    let r := readVarintS data pos 0 0
    let rest := readTileIds data n r.2 (tid + r.1)
    ((tid + r.1) :: rest.1, rest.2)

/-- Read `n` plain varints (`serve.py` lines 140–150). -/
def readVarints (data : List ℕ) : ℕ → ℕ → List ℕ × ℕ
  | 0, pos => ([], pos)
  | n + 1, pos =>
    let r := readVarintS data pos 0 0
    let rest := readVarints data n r.2
    (r.1 :: rest.1, rest.2)

/-- Read the delta-encoded offsets (`serve.py` lines 152–162): when the entry's
length is `0` the previous accumulated offset is reused (run continuation),
otherwise one varint delta is consumed. -/
def readOffsets (data : List ℕ) : List ℕ → ℕ → ℕ → List ℕ × ℕ
  | [], pos, _ => ([], pos)
  | l :: ls, pos, acc =>
    if l = 0 then
      let rest := readOffsets data ls pos acc
      (acc :: rest.1, rest.2)
    else
      let r := readVarintS data pos 0 0
      let rest := readOffsets data ls r.2 (acc + r.1)
      ((acc + r.1) :: rest.1, rest.2)

/-- Assemble the four parallel lists into entries (`serve.py` lines 164–182). -/
def buildEntries : List ℕ → List ℕ → List ℕ → List ℕ → List DirEntry
  | tid :: tids, rl :: rls, ln :: lns, off :: offs =>
    (if rl = 0 then DirEntry.leaf tid off ln else DirEntry.tile tid rl off ln)
      :: buildEntries tids rls lns offs
  | _, _, _, _ => []

/-- `PMTilesReader._read_directory` (`serve.py` lines 119–185), without the
per-`(offset, length)` cache (the cached value is a pure function of the
arguments). -/
def readDirectoryS (file : List ℕ)
    (brotliF zstdF : Option (List ℕ → Except PyErr (List ℕ)))
    (internalCompression : ℕ) (offset length : ℕ) :
    Except PyErr (List DirEntry) := do
  let raw := (file.drop offset).take length
  let data ← pmDecompress brotliF zstdF raw internalCompression
  let r0 := readVarintS data 0 0 0
  let numEntries := r0.1
  let r1 := readTileIds data numEntries r0.2 0
  let r2 := readVarints data numEntries r1.2
  let r3 := readVarints data numEntries r2.2
  let r4 := readOffsets data r3.1 r3.2 0
  pure (buildEntries r1.1 r2.1 r3.1 r4.1)

/-! ### Hilbert tile ids (`PMTilesReader._zxy_to_tile_id`, `serve.py` 187–215)

The loop keeps `x`, `y` in Python's arbitrary-precision integers; after a
reflection `x = s - 1 - x` they can go negative, so the state is modelled in
`ℤ`.  Python's `&` on integers is two's-complement bitwise and, which is
exactly `Int.land`. -/

/-- The rotation step of the loop (`serve.py` lines 207–212): when `ry = 0`,
reflect within the current sub-square if `rx = 1`, then swap `x` and `y`. -/
def hilbertRot (s x y : ℤ) (rx ry : ℕ) : ℤ × ℤ :=
  if ry = 0 then
    if rx = 1 then (s - 1 - y, s - 1 - x) else (y, x)
  else (x, y)

/-- The Hilbert-index loop of `_zxy_to_tile_id` (`serve.py` lines 198–213):
`hilbertD k x y` runs the iterations with `s = 2 ^ (k-1), …, 2, 1` and returns
the accumulated `d`.  `(x & s) > 0` is `0 < Int.land x (2 ^ (k-1))`. -/
def hilbertD : ℕ → ℤ → ℤ → ℕ
  | 0, _, _ => 0
  | k + 1, x, y =>
    let s : ℤ := ((2 ^ k : ℕ) : ℤ)
    let rx : ℕ := if 0 < Int.land x s then 1 else 0
    let ry : ℕ := if 0 < Int.land y s then 1 else 0
    let p := hilbertRot s x y rx ry
    2 ^ k * 2 ^ k * ((3 * rx) ^^^ ry) + hilbertD k p.1 p.2

/-- The zoom-level base offset `Σ_i<z (1 << i) * (1 << i)` (`serve.py`
lines 193–195). -/
def zoomOffset (z : ℕ) : ℕ :=
  (List.range z).foldl (fun acc i => acc + (1 <<< i) * (1 <<< i)) 0

/-- `PMTilesReader._zxy_to_tile_id` (`serve.py` lines 187–215). -/
def zxyToTileId (z x y : ℕ) : ℕ :=
  if z = 0 then 0 else zoomOffset z + hilbertD z (x : ℤ) (y : ℤ)

/-- The state transformation of one normalised Hilbert step: digits are read
off the top bit, the remainder is reflected / swapped as in `hilbertRot`. -/
def hilbertNPair (k x y : ℕ) : ℕ × ℕ :=
  if y / 2 ^ k = 0 then
    (if x / 2 ^ k = 1 then (2 ^ k - 1 - y % 2 ^ k, 2 ^ k - 1 - x % 2 ^ k)
     else (y % 2 ^ k, x % 2 ^ k))
  else (x % 2 ^ k, y % 2 ^ k)

/-- Normalised form of the Hilbert loop over `ℕ`: the state is reduced
mod `2 ^ k` at every level (the loop only ever inspects those bits).
`hilbertD` agrees with it after reducing its arguments
(`hilbertD_eq_hilbertN`). -/
def hilbertN : ℕ → ℕ → ℕ → ℕ
  | 0, _, _ => 0
  | k + 1, x, y =>
    2 ^ k * 2 ^ k * ((3 * (x / 2 ^ k)) ^^^ (y / 2 ^ k))
      + hilbertN k (hilbertNPair k x y).1 (hilbertNPair k x y).2

/-! ### The header parse and tile lookup (`serve.py` lines 35–256) -/

/-- Items of a Python struct format string: `Q` (u64 LE), `B` (u8), `x`
(pad byte) and `i` (i32 LE). -/
inductive SItem where
  | uq
  | ub
  | pad
  | ii
deriving DecidableEq, Repr

/-- Byte size of one item (its `struct.calcsize` contribution). -/
def sitemSize : SItem → ℕ
  | .uq => 8
  | .ub => 1
  | .pad => 1
  | .ii => 4

/-- `struct.calcsize` of a format. -/
def structCalcsize (fmt : List SItem) : ℕ := (fmt.map sitemSize).sum

/-- The format `<QQQQQQQQQQQBBBBBB3xiiiiiBii` of `PMTilesReader._read_header`
(`serve.py` line 80): eleven `Q`, six `B`, three pad bytes, five `i`, one `B`,
two `i`.  Its size is 126 bytes and it yields 25 values. -/
def headerFmt : List SItem :=
  List.replicate 11 .uq ++ List.replicate 6 .ub ++ List.replicate 3 .pad ++
    List.replicate 5 .ii ++ [.ub] ++ List.replicate 2 .ii

/-- Little-endian value of a byte list. -/
def leNat (bytes : List ℕ) : ℕ := bytes.foldr (fun b acc => b + 256 * acc) 0

/-- Little-endian signed 32-bit value (two's complement). -/
def leInt32 (bytes : List ℕ) : ℤ :=
  let u := leNat bytes
  if u < 2 ^ 31 then (u : ℤ) else (u : ℤ) - 2 ^ 32

/-- The values of a format's items, read off a byte list. -/
def unpackItems : List SItem → List ℕ → List ℤ
  | [], _ => []
  | .uq :: fmt, data => ((leNat (data.take 8) : ℕ) : ℤ) :: unpackItems fmt (data.drop 8)
  | .ub :: fmt, data => ((data.headD 0 : ℕ) : ℤ) :: unpackItems fmt (data.drop 1)
  | .pad :: fmt, data => unpackItems fmt (data.drop 1)
  | .ii :: fmt, data => leInt32 (data.take 4) :: unpackItems fmt (data.drop 4)

/-- `struct.unpack(fmt, data)`: demands `len(data) = calcsize(fmt)` exactly,
raising `struct.error` otherwise. -/
def structUnpack (fmt : List SItem) (data : List ℕ) : Except PyErr (List ℤ) :=
  if data.length = structCalcsize fmt then .ok (unpackItems fmt data)
  else .error .structErr

/-- The header fields of `PMTilesReader` (`serve.py` lines 55–79). -/
structure PMHeader where
  rootDirOffset : ℕ
  rootDirLength : ℕ
  jsonMetadataOffset : ℕ
  jsonMetadataLength : ℕ
  leafDirsOffset : ℕ
  leafDirsLength : ℕ
  tileDataOffset : ℕ
  tileDataLength : ℕ
  numAddressedTiles : ℕ
  numTileEntries : ℕ
  numTileContents : ℕ
  clustered : ℕ
  internalCompression : ℕ
  tileCompression : ℕ
  tileType : ℕ
  minZoom : ℕ
  maxZoom : ℕ
  minLonE7 : ℤ
  minLatE7 : ℤ
  maxLonE7 : ℤ
  maxLatE7 : ℤ
  centerZoom : ℤ
  centerLonE7 : ℤ
  centerLatE7 : ℤ
deriving Repr

/-- The bytes of the magic `b"PMTiles"`. -/
def pmMagicBytes : List ℕ := [80, 77, 84, 105, 108, 101, 115]

/-- `PMTilesReader._read_header` (`serve.py` lines 41–80): check the magic and
the version byte, read 119 bytes of header data, unpack them with `headerFmt`
(whose size is 126) and bind the resulting values to 24 names. -/
def readHeaderS (file : List ℕ) : Except PyErr PMHeader :=
  if file.take 7 ≠ pmMagicBytes then .error (.valueErr "Not a PMTiles file")
  else
    match structUnpack [SItem.ub] ((file.drop 7).take 1) with
    | .error e => .error e
    | .ok vvals =>
      if vvals.headD 0 ≠ 3 then .error (.valueErr "Unsupported PMTiles version")
      else
        match structUnpack headerFmt ((file.drop 8).take 119) with
        | .error e => .error e
        | .ok vals =>
          match vals with
          | [a0, a1, a2, a3, a4, a5, a6, a7, a8, a9, a10,
             b0, b1, b2, b3, b4, b5, c0, c1, c2, c3, d0, d1, d2] =>
            .ok ⟨a0.toNat, a1.toNat, a2.toNat, a3.toNat, a4.toNat, a5.toNat,
              a6.toNat, a7.toNat, a8.toNat, a9.toNat, a10.toNat,
              b0.toNat, b1.toNat, b2.toNat, b3.toNat, b4.toNat, b5.toNat,
              c0, c1, c2, c3, d0, d1, d2⟩
          | _ => .error (.valueErr "wrong number of values to unpack")

/-- `PMTilesReader._find_tile` (`serve.py` lines 217–239): scan the entries; a
tile run `[tileId, tileId + runLength)` containing the target yields its
offset and length; a leaf pointer with `tileId ≤` target is read from
`leaf_dirs_offset + offset` and searched recursively, `depth > 10` giving
up. -/
def findTileS (file : List ℕ)
    (brotliF zstdF : Option (List ℕ → Except PyErr (List ℕ)))
    (leafDirsOffset internalCompression : ℕ) :
    ℕ → ℕ → List DirEntry → Except PyErr (Option (ℕ × ℕ))
  | depth, tid, entries =>
    if h : depth > 10 then .ok none
    else
      match entries with
      | [] => .ok none
      | DirEntry.tile id run off len :: rest =>
        if id ≤ tid ∧ tid < id + run then .ok (some (off, len))
        else findTileS file brotliF zstdF leafDirsOffset internalCompression
          depth tid rest
      | DirEntry.leaf id off len :: rest =>
        if id ≤ tid then
          match readDirectoryS file brotliF zstdF internalCompression
              (leafDirsOffset + off) len with
          | .error e => .error e
          | .ok leafEntries =>
            match findTileS file brotliF zstdF leafDirsOffset internalCompression
                (depth + 1) tid leafEntries with
            | .error e => .error e
            | .ok (some r) => .ok (some r)
            | .ok none => findTileS file brotliF zstdF leafDirsOffset
                internalCompression depth tid rest
        else findTileS file brotliF zstdF leafDirsOffset internalCompression
          depth tid rest
termination_by depth _ entries => (11 - depth, entries.length)

/-- `PMTilesReader.get_tile` (`serve.py` lines 241–256), composed with the
constructor's `_read_header`: convert `(z, x, y)` to a tile id, read the root
directory, locate the entry and read `length` bytes at
`tile_data_offset + offset`.  A miss is `.ok none`; a raised exception is
`.error`. -/
def getTileS (file : List ℕ)
    (brotliF zstdF : Option (List ℕ → Except PyErr (List ℕ)))
    (z x y : ℕ) : Except PyErr (Option (List ℕ)) :=
  match readHeaderS file with
  | .error e => .error e
  | .ok h =>
    let tileId := zxyToTileId z x y
    match readDirectoryS file brotliF zstdF h.internalCompression
        h.rootDirOffset h.rootDirLength with
    | .error e => .error e
    | .ok entries =>
      match findTileS file brotliF zstdF h.leafDirsOffset h.internalCompression
          0 tileId entries with
      | .error e => .error e
      | .ok none => .ok none
      | .ok (some r) => .ok (some ((file.drop (h.tileDataOffset + r.1)).take r.2))

/-! ### The vector-tile layer inspector (`cli/.../tiles/layer_inspector.py`)

Strings are byte lists; `bytes.decode("utf-8")` (Python standard library) is
modelled as an RFC 3629 validity check returning the bytes themselves.  The
position-jumping loops of the walker are written with an explicit fuel
argument (`none` = fuel ran out); the totality theorems below prove the fuel
chosen by the entry points is always sufficient, which is exactly the
termination of the Python loops. -/

def decompressTile (content : List ℕ) : List ℕ :=
  if content.take 2 = gzipMagic then
    match gzipDecompress content with
    | some d => d
    | none => content
  else content

def readVarintLAux (data : List ℕ) : ℕ → ℕ → ℕ → ℕ → Option ℕ × ℕ
  | 0, pos, _, _ => (none, pos)
  | fuel + 1, pos, result, shift =>
    if pos < data.length then
      let byte := data.getD pos 0
      let result' := result ||| ((byte &&& 0x7F) <<< shift)
      if byte &&& 0x80 = 0 then (some result', pos + 1)
      else if shift + 7 > 64 then (none, pos + 1)
      else readVarintLAux data fuel (pos + 1) result' (shift + 7)
    else (none, pos)

def readVarintL (data : List ℕ) (pos : ℕ) : Option ℕ × ℕ :=
  readVarintLAux data (data.length - pos) pos 0 0

def skipField (data : List ℕ) (pos : ℕ) (wireType : ℕ) : Option ℕ :=
  if wireType = 0 then some (readVarintL data pos).2
  else if wireType = 1 then some (pos + 8)
  else if wireType = 2 then
    match readVarintL data pos with
    | (none, _) => none
    | (some length, pos') => some (pos' + length)
  else if wireType = 5 then some (pos + 4)
  else none

def utf8Cont (c : ℕ) : Bool := 0x80 ≤ c ∧ c ≤ 0xBF

def utf8Valid : List ℕ → Bool
  | [] => true
  | b :: rest =>
    if b < 0x80 then utf8Valid rest
    else if 0xC2 ≤ b ∧ b ≤ 0xDF then
      match rest with
      | c :: r => utf8Cont c && utf8Valid r
      | [] => false
    else if b = 0xE0 then
      match rest with
      | c1 :: c2 :: r => (0xA0 ≤ c1 ∧ c1 ≤ 0xBF : Bool) && utf8Cont c2 && utf8Valid r
      | _ => false
    else if (0xE1 ≤ b ∧ b ≤ 0xEC) ∨ b = 0xEE ∨ b = 0xEF then
      match rest with
      | c1 :: c2 :: r => utf8Cont c1 && utf8Cont c2 && utf8Valid r
      | _ => false
    else if b = 0xED then
      match rest with
      | c1 :: c2 :: r => (0x80 ≤ c1 ∧ c1 ≤ 0x9F : Bool) && utf8Cont c2 && utf8Valid r
      | _ => false
    else if b = 0xF0 then
      match rest with
      | c1 :: c2 :: c3 :: r =>
        (0x90 ≤ c1 ∧ c1 ≤ 0xBF : Bool) && utf8Cont c2 && utf8Cont c3 && utf8Valid r
      | _ => false
    else if 0xF1 ≤ b ∧ b ≤ 0xF3 then
      match rest with
      | c1 :: c2 :: c3 :: r => utf8Cont c1 && utf8Cont c2 && utf8Cont c3 && utf8Valid r
      | _ => false
    else if b = 0xF4 then
      match rest with
      | c1 :: c2 :: c3 :: r =>
        (0x80 ≤ c1 ∧ c1 ≤ 0x8F : Bool) && utf8Cont c2 && utf8Cont c3 && utf8Valid r
      | _ => false
    else false

def utf8Decode (bs : List ℕ) : Option (List ℕ) :=
  if utf8Valid bs then some bs else none

structure TileLayerInfo where
  name : List ℕ
  featureCount : ℕ
deriving DecidableEq, Repr

def parseLayerLoop (layerData : List ℕ) :
    ℕ → ℕ → Option (List ℕ) → ℕ → Option (Option (List ℕ) × ℕ)
  | 0, _, _, _ => none
  | fuel + 1, pos, name, featureCount =>
    if pos < layerData.length then
      let tagByte := layerData.getD pos 0
      let fieldNum := tagByte >>> 3
      let wireType := tagByte &&& 0x07
      let pos1 := pos + 1
      if fieldNum = 1 ∧ wireType = 2 then
        match readVarintL layerData pos1 with
        | (none, _) => some (name, featureCount)
        | (some len, pos2) =>
          if pos2 + len > layerData.length then some (name, featureCount)
          else
            let nameBytes := (layerData.drop pos2).take len
            let name' := match utf8Decode nameBytes with
              | some s => some s
              | none => name
            parseLayerLoop layerData fuel (pos2 + len) name' featureCount
      else if fieldNum = 2 ∧ wireType = 2 then
        match readVarintL layerData pos1 with
        | (none, _) => some (name, featureCount + 1)
        | (some len, pos2) => parseLayerLoop layerData fuel (pos2 + len) name (featureCount + 1)
      else
        match skipField layerData pos1 wireType with
        | none => some (name, featureCount)
        | some pos' => parseLayerLoop layerData fuel pos' name featureCount
    else some (name, featureCount)

def parseLayer (layerData : List ℕ) : Option (Option TileLayerInfo) :=
  match parseLayerLoop layerData (layerData.length + 1) 0 none 0 with
  | none => none
  | some (name, fc) =>
    some (match name with
      | some s => if s ≠ [] then some ⟨s, fc⟩ else none
      | none => none)

def extractLayerNamesLoop (content : List ℕ) :
    ℕ → ℕ → List (List ℕ) → Option (List (List ℕ))
  | 0, _, _ => none
  | fuel + 1, pos, acc =>
    if pos < content.length then
      let tagByte := content.getD pos 0
      let fieldNum := tagByte >>> 3
      let wireType := tagByte &&& 0x07
      let pos1 := pos + 1
      if fieldNum = 3 ∧ wireType = 2 then
        match readVarintL content pos1 with
        | (none, _) => some acc
        | (some len, pos2) =>
          if pos2 + len > content.length then some acc
          else
            let layerData := (content.drop pos2).take len
            match parseLayer layerData with
            | none => none
            | some layerInfo =>
              let acc' := match layerInfo with
                | some info => if info.name ≠ [] then acc ++ [info.name] else acc
                | none => acc
              extractLayerNamesLoop content fuel (pos2 + len) acc'
      else
        match skipField content pos1 wireType with
        | none => some acc
        | some pos' => extractLayerNamesLoop content fuel pos' acc
    else some acc

def extractLayerNamesProtobuf (tileContent : List ℕ) : Option (List (List ℕ)) :=
  let content := decompressTile tileContent
  extractLayerNamesLoop content (content.length + 1) 0 []

/-! ### The tile fetcher (`tiles/fetcher.py` lines 211–383)

Network effects are data: `Attempt` is what one HTTP attempt yields, and a
function `resp : ℕ → Attempt` gives the outcome of each attempt for one
coordinate.  `asyncio.as_completed` delivers results in an arbitrary
completion order; it is modelled by quantifying over every permutation of
the requested coordinates. -/

inductive Attempt where
  | response (status : ℕ) (body : List ℕ)
  | timeout
  | exc (msg : String)
deriving DecidableEq, Repr

inductive FetchErr where
  | authRequired
  | tileNotFound
  | httpError (status : ℕ)
  | timeoutErr
  | excMsg (msg : String)
  | maxRetriesExceeded
deriving DecidableEq, Repr

structure FetchResult where
  coord : TileCoord
  content : Option (List ℕ)
  status : Option ℕ
  error : Option FetchErr
deriving DecidableEq, Repr

/-- `FetchResult.success` (`fetcher.py` lines 38–40). -/
def FetchResult.success (r : FetchResult) : Bool :=
  r.content.isSome && (r.status == some 200)

/-- The retry loop of `TileFetcher.fetch_tile` (`fetcher.py` lines 270–333):
`remaining` counts the attempts left (`max_retries + 1` at entry), so the
source's `attempt < max_retries` is `0 < remaining`; 200 returns the body,
401/403 and 404 short-circuit, other statuses, timeouts and exceptions retry
until the attempts run out. -/
def fetchTileLoop (coord : TileCoord) (resp : ℕ → Attempt) :
    ℕ → ℕ → FetchResult
  | 0, _ => ⟨coord, none, none, some .maxRetriesExceeded⟩
  | remaining + 1, attempt =>
    match resp attempt with
    | .response s body =>
      if s = 200 then ⟨coord, some body, some 200, none⟩
      else if s = 401 ∨ s = 403 then ⟨coord, none, some s, some .authRequired⟩
      else if s = 404 then ⟨coord, none, some 404, some .tileNotFound⟩
      else if 0 < remaining then fetchTileLoop coord resp remaining (attempt + 1)
      else ⟨coord, none, some s, some (.httpError s)⟩
    | .timeout =>
      if 0 < remaining then fetchTileLoop coord resp remaining (attempt + 1)
      else ⟨coord, none, none, some .timeoutErr⟩
    | .exc m =>
      if 0 < remaining then fetchTileLoop coord resp remaining (attempt + 1)
      else ⟨coord, none, none, some (.excMsg m)⟩

/-- `TileFetcher.fetch_tile` (`fetcher.py` lines 261–333). -/
def fetchTile (coord : TileCoord) (resp : ℕ → Attempt) (maxRetries : ℕ) : FetchResult :=
  fetchTileLoop coord resp (maxRetries + 1) 0

/-- `TileFetcher.fetch_tiles` (`fetcher.py` lines 335–383): one task per
coordinate, results appended in completion order. -/
def fetchTiles (resp : TileCoord → ℕ → Attempt) (maxRetries : ℕ)
    (completionOrder : List TileCoord) : List FetchResult :=
  completionOrder.map (fun c => fetchTile c (resp c) maxRetries)

/-! ### Tile math and coverage (`tiles/fetcher.py`, `tiles/coverage.py`)

Python floats are idealised as real numbers (infinities, where the source
uses `float('inf')`, as extended reals); `math.asinh`, `math.tan`,
`math.sinh`, `math.atan` and `math.pi` become their exact counterparts on
`ℝ`. -/

/-- Python `int()` applied to a real number: truncation toward zero. -/
noncomputable def pyInt (r : ℝ) : ℤ := if 0 ≤ r then ⌊r⌋ else -⌊-r⌋

/-- `TileMath.lon_to_tile_x` (`fetcher.py` lines 73–76):
`int((lon + 180.0) / 360.0 * (1 << zoom))`. -/
noncomputable def lon_to_tile_x (lon : ℝ) (zoom : ℕ) : ℤ :=
  pyInt ((lon + 180) / 360 * ((2 ^ zoom : ℕ) : ℝ))

/-- `TileMath.lat_to_tile_y` (`fetcher.py` lines 78–83):
`int((1.0 - asinh(tan(radians(lat))) / pi) / 2.0 * (1 << zoom))`. -/
noncomputable def lat_to_tile_y (lat : ℝ) (zoom : ℕ) : ℤ :=
  pyInt ((1 - Real.arsinh (Real.tan (lat * Real.pi / 180)) / Real.pi) / 2
    * ((2 ^ zoom : ℕ) : ℝ))

/-- `GeoBounds` (`tiles/coverage.py` lines 16–30), floats idealised as reals. -/
structure GeoBounds where
  west : ℝ
  south : ℝ
  east : ℝ
  north : ℝ

/-- `TileMath.tiles_for_bounds` (`fetcher.py` lines 97–118): corner tile
indices clamped to `[0, 2^zoom - 1]`, then the x-major double loop. -/
noncomputable def tiles_for_bounds (bounds : GeoBounds) (zoom : ℕ) : List TileCoord :=
  let min_x := max 0 (lon_to_tile_x bounds.west zoom)
  let max_x := min (((2 ^ zoom : ℕ) : ℤ) - 1) (lon_to_tile_x bounds.east zoom)
  let min_y := max 0 (lat_to_tile_y bounds.north zoom)
  let max_y := min (((2 ^ zoom : ℕ) : ℤ) - 1) (lat_to_tile_y bounds.south zoom)
  ((List.range (max_x + 1 - min_x).toNat).map (fun (i : ℕ) =>
    (List.range (max_y + 1 - min_y).toNat).map (fun (j : ℕ) =>
      TileCoord.mk zoom (min_x + (i : ℤ)).toNat (min_y + (j : ℤ)).toNat))).flatten

/-- `TileMath.count_tiles_for_bounds` (`fetcher.py` lines 120–130): width
times height of the UNCLAMPED index ranges. -/
noncomputable def count_tiles_for_bounds (bounds : GeoBounds) (zoom : ℕ) : ℤ :=
  (lon_to_tile_x bounds.east zoom - lon_to_tile_x bounds.west zoom + 1)
    * (lat_to_tile_y bounds.south zoom - lat_to_tile_y bounds.north zoom + 1)

/-- The sort key `(t.z, t.x, t.y)` of `find_missing_tiles` (`fetcher.py`
line 206), as a lexicographic order on `TileCoord`. -/
def tcLe (a b : TileCoord) : Prop :=
  a.z < b.z ∨ (a.z = b.z ∧ (a.x < b.x ∨ (a.x = b.x ∧ a.y ≤ b.y)))

instance : DecidableRel tcLe := fun a b => by unfold tcLe; exact inferInstance

instance : IsTrans TileCoord tcLe where
  trans a b c hab hbc := by unfold tcLe at *; omega

instance : IsAntisymm TileCoord tcLe where
  antisymm a b hab hba := by
    cases a; cases b
    unfold tcLe at hab hba
    dsimp only at hab hba
    simp only [TileCoord.mk.injEq]
    omega

instance : IsTotal TileCoord tcLe where
  total a b := by unfold tcLe; omega

/-- The per-zoom set difference of `find_missing_tiles` (`fetcher.py` lines
200–202): required tiles minus the captured tiles at that zoom. -/
noncomputable def missingAtZoom (bounds : GeoBounds) (captured : Finset TileCoord)
    (zoom : ℕ) : Finset TileCoord :=
  (tiles_for_bounds bounds zoom).toFinset \ captured.filter (fun t => t.z = zoom)

/-- `CoverageAnalyzer.find_missing_tiles` (`fetcher.py` lines 188–208).  The
Python dict keyed by zoom is modelled as an association list in insertion
order; a zoom repeated in `zoom_levels` re-inserts an equal value, so lookup
semantics are preserved. -/
noncomputable def find_missing_tiles (bounds : GeoBounds) (captured : Finset TileCoord)
    (zoom_levels : List ℕ) : List (ℕ × List TileCoord) :=
  zoom_levels.foldl (fun missing zoom =>
    if missingAtZoom bounds captured zoom = ∅ then missing
    else missing ++ [(zoom, (missingAtZoom bounds captured zoom).sort tcLe)]) []

/-- `math.degrees`. -/
noncomputable def rad2deg (r : ℝ) : ℝ := r * 180 / Real.pi

/-- `CoverageCalculator.tile_to_bounds` (`coverage.py` lines 36–52). -/
noncomputable def tile_to_bounds (coord : TileCoord) : GeoBounds :=
  let n : ℝ := ((2 ^ coord.z : ℕ) : ℝ)
  { west := (coord.x : ℝ) / n * 360 - 180
    north := rad2deg (Real.arctan (Real.sinh (Real.pi * (1 - 2 * (coord.y : ℝ) / n))))
    east := ((coord.x : ℝ) + 1) / n * 360 - 180
    south := rad2deg (Real.arctan (Real.sinh (Real.pi * (1 - 2 * ((coord.y : ℝ) + 1) / n)))) }

/-- `CoverageCalculator.calculate_bounds` (`coverage.py` lines 54–76): fold of
componentwise min/max from `float('inf')` seeds (floats with infinities are
idealised as extended reals); the empty list raises `ValueError`. -/
noncomputable def calculate_bounds (tiles : List TileCoord) :
    Except PyErr (EReal × EReal × EReal × EReal) :=
  if tiles = [] then .error (.valueErr "No tiles provided")
  else .ok (tiles.foldl (fun acc tile =>
    (min acc.1 ((tile_to_bounds tile).west : EReal),
     min acc.2.1 ((tile_to_bounds tile).south : EReal),
     max acc.2.2.1 ((tile_to_bounds tile).east : EReal),
     max acc.2.2.2 ((tile_to_bounds tile).north : EReal)))
    (⊤, ⊤, ⊥, ⊥))

/-- Python `min` over a non-empty list (never applied to `[]` here; the `[]`
case is an arbitrary default standing in for Python's `ValueError`). -/
def pyMin : List ℕ → ℕ
  | [] => 0
  | a :: l => l.foldl min a

/-- Python `max` over a non-empty list (same remark as `pyMin`). -/
def pyMax : List ℕ → ℕ
  | [] => 0
  | a :: l => l.foldl max a

/-- `CoverageCalculator.get_zoom_range` (`coverage.py` lines 78–84). -/
def get_zoom_range (tiles : List TileCoord) : Except PyErr (ℕ × ℕ) :=
  if tiles = [] then .error (.valueErr "No tiles provided")
  else .ok (pyMin (tiles.map TileCoord.z), pyMax (tiles.map TileCoord.z))

/-- `CoverageReport` (`fetcher.py` lines 43–68).  The Python dicts keyed by
zoom are modelled as association lists in insertion order; captured counts
are naturals, while required/missing counts come from
`count_tiles_for_bounds` and are integers. -/
structure CoverageReport where
  bounds : GeoBounds
  zoom_levels : List ℕ
  tiles_by_zoom : List (ℕ × ℕ) := []
  required_by_zoom : List (ℕ × ℤ) := []
  missing_by_zoom : List (ℕ × ℤ) := []

/-- `CoverageReport.total_captured` (`fetcher.py` lines 52–54). -/
def CoverageReport.total_captured (r : CoverageReport) : ℕ :=
  (r.tiles_by_zoom.map Prod.snd).sum

/-- `CoverageReport.total_required` (`fetcher.py` lines 56–58). -/
def CoverageReport.total_required (r : CoverageReport) : ℤ :=
  (r.required_by_zoom.map Prod.snd).sum

/-- `CoverageReport.total_missing` (`fetcher.py` lines 60–62). -/
def CoverageReport.total_missing (r : CoverageReport) : ℤ :=
  (r.missing_by_zoom.map Prod.snd).sum

/-- `CoverageReport.coverage_percent` (`fetcher.py` lines 64–68); float
division idealised as exact rational division. -/
def CoverageReport.coverage_percent (r : CoverageReport) : ℚ :=
  if r.total_required = 0 then 100
  else ((r.total_captured : ℚ) / (r.total_required : ℚ)) * 100

/-- `CoverageAnalyzer.analyze` (`fetcher.py` lines 140–186).  The captured
set is a `Finset`; `expand_zoom` is a Python int. -/
noncomputable def analyze (bounds : GeoBounds) (captured_tiles : Finset TileCoord)
    (expand_zoom : ℤ) : CoverageReport :=
  let captured_zooms := captured_tiles.image TileCoord.z
  if h : captured_zooms.Nonempty then
    let min_zoom := captured_zooms.min' h
    let top_zoom := if 0 < expand_zoom
      then min 22 ((captured_zooms.max' h : ℤ) + expand_zoom).toNat
      else captured_zooms.max' h
    let zoom_levels := (List.range (top_zoom + 1 - min_zoom)).map (fun i => min_zoom + i)
    { bounds := bounds
      zoom_levels := zoom_levels
      tiles_by_zoom := zoom_levels.map (fun zoom =>
        (zoom, (captured_tiles.filter (fun t => t.z = zoom)).card))
      required_by_zoom := zoom_levels.map (fun zoom =>
        (zoom, count_tiles_for_bounds bounds zoom))
      missing_by_zoom := zoom_levels.map (fun zoom =>
        (zoom, max 0 (count_tiles_for_bounds bounds zoom
          - ((captured_tiles.filter (fun t => t.z = zoom)).card : ℤ)))) }
  else { bounds := bounds, zoom_levels := [] }

/-! ## Theorems -/

/-! ### `_ensure_gzipped` (Claim C4) -/

theorem gzipDecompress_gzipCompress (x : List ℕ) :
    gzipDecompress (gzipCompress x) = some x := rfl

theorem ensureGzipped_of_valid (x : List ℕ) (h : (gzipDecompress x).isSome) :
    ensureGzipped x = x := by
  obtain ⟨y, hy⟩ := Option.isSome_iff_exists.mp h
  unfold gzipDecompress at hy
  match x, hy with
  | 31 :: 139 :: 8 :: rest, _ =>
    simp [ensureGzipped, gzipMagic, gzipDecompress, List.take]

theorem ensureGzipped_valid (x : List ℕ) :
    (gzipDecompress (ensureGzipped x)).isSome := by
  unfold ensureGzipped
  split
  · rcases hv : gzipDecompress x with _ | y
    · simp [hv, gzipDecompress_gzipCompress]
    · simp [hv]
  · simp [gzipDecompress_gzipCompress]

/-- Claim C4: `_ensure_gzipped` is idempotent, and already-valid gzip input is
returned unchanged (never compressed a second time). -/
theorem C4_ensure_gzipped_idempotent (x : List ℕ) :
    ensureGzipped (ensureGzipped x) = ensureGzipped x ∧
    ((gzipDecompress x).isSome → ensureGzipped x = x) :=
  ⟨ensureGzipped_of_valid _ (ensureGzipped_valid x), ensureGzipped_of_valid x⟩

/-- Concrete instance discharging Claim C4's hypothesis: the stream
`gzipCompress [1, 2, 3]` is valid gzip and passes through unchanged. -/
theorem C4_ensure_gzipped_idempotent_wit :
    (gzipDecompress [31, 139, 8, 1, 2, 3]).isSome = true ∧
    ensureGzipped [31, 139, 8, 1, 2, 3] = [31, 139, 8, 1, 2, 3] := by
  refine ⟨by decide, ?_⟩
  exact (C4_ensure_gzipped_idempotent [31, 139, 8, 1, 2, 3]).2 (by decide)

/-! ### `_decompress` / `_read_directory` (Claim C8) -/

/-- Claim C8, counterexample: reading a directory under the unsupported
internal-compression code 7 does not fail — the reader silently parses the
bytes with no decompression at all and returns entries. -/
theorem C8_unsupported_compression_cex :
    readDirectoryS [1, 5, 1, 10, 20] none none 7 0 5 =
      .ok [DirEntry.tile 5 1 20 10] := rfl

/-- Claim C8, amended: `_decompress` never fails on compression codes outside
2 and 3 — any code ≥ 4 returns the data unchanged; only the optional-codec
codes 2 (brotli) and 3 (zstd) fail, with a `ValueError` naming the missing
package, and only when that package is unavailable. -/
theorem C8_unsupported_compression_amended (data : List ℕ) (c : ℕ) (hc : 4 ≤ c) :
    pmDecompress none none data c = .ok data ∧
    pmDecompress none none data 2 = .error (.valueErr brotliMissingMsg) ∧
    pmDecompress none none data 3 = .error (.valueErr zstdMissingMsg) := by
  refine ⟨?_, rfl, rfl⟩
  unfold pmDecompress
  have h0 : ¬(c = 0 ∨ c = 0) := by omega
  rw [if_neg h0, if_neg (by omega : ¬c = 1), if_neg (by omega : ¬c = 2),
    if_neg (by omega : ¬c = 3)]

/-- Concrete instance discharging Claim C8's amended hypothesis at code 7. -/
theorem C8_unsupported_compression_amended_wit :
    pmDecompress none none [1, 2, 3] 7 = .ok [1, 2, 3] ∧
    pmDecompress none none [1, 2, 3] 2 = .error (.valueErr brotliMissingMsg) ∧
    pmDecompress none none [1, 2, 3] 3 = .error (.valueErr zstdMissingMsg) :=
  C8_unsupported_compression_amended [1, 2, 3] 7 (by decide)

/-! ### The Hilbert tile-id bijection (Claim C2)

The chain: bitwise facts about `Int.land x (2 ^ k)`; `hilbertD` agrees with
the normalised `hilbertN` after reducing the state mod `2 ^ k`; `hilbertN` is
injective and surjective onto `[0, 4 ^ k)`. -/

example : hilbertN 2 3 0 = 15 := by decide
example : zxyToTileId 1 0 0 = 1 ∧ zxyToTileId 1 0 1 = 2 ∧
    zxyToTileId 1 1 1 = 3 ∧ zxyToTileId 1 1 0 = 4 := by decide
example :
    ((List.range 8).map (fun x =>
      (List.range 8).map (fun y => hilbertN 3 x y))).flatten.dedup.length
      = 64 := by decide

theorem nat_ldiff_two_pow (m k : ℕ) :
    Nat.ldiff (2 ^ k) m = if m.testBit k then 0 else 2 ^ k := by
  apply Nat.eq_of_testBit_eq
  intro i
  rw [Nat.testBit_ldiff]
  by_cases hik : k = i
  · subst hik
    rw [Nat.testBit_two_pow_self]
    cases h : m.testBit k <;> simp [h, Nat.testBit_two_pow_self]
  · rw [Nat.testBit_two_pow_of_ne hik]
    cases h : m.testBit k <;> simp [h, Nat.testBit_two_pow_of_ne hik]

theorem int_land_two_pow (x : ℤ) (k : ℕ) :
    Int.land x ((2 ^ k : ℕ) : ℤ) = if x.testBit k then ((2 ^ k : ℕ) : ℤ) else 0 := by
  cases x with
  | ofNat m =>
    show ((m &&& 2 ^ k : ℕ) : ℤ) = _
    rw [Nat.and_two_pow]
    show _ = if Nat.testBit m k then _ else _
    cases h : m.testBit k <;> simp [h]
  | negSucc m =>
    show ((Nat.ldiff (2 ^ k) m : ℕ) : ℤ) = _
    rw [nat_ldiff_two_pow]
    show _ = if !(Nat.testBit m k) then _ else _
    cases h : m.testBit k <;> simp [h]

theorem nat_testBit_iff (m k : ℕ) :
    m.testBit k = true ↔ 2 ^ k ≤ m % 2 ^ (k + 1) := by
  rw [Nat.testBit_to_div_mod]
  have h1 : m % 2 ^ (k + 1) / 2 ^ k = m / 2 ^ k % 2 := by
    rw [pow_succ]
    exact Nat.mod_mul_right_div_self m (2 ^ k) 2
  have h2 : m % 2 ^ (k + 1) < 2 ^ k * 2 := by
    rw [← pow_succ]
    exact Nat.mod_lt _ (by positivity)
  have h3 : m % 2 ^ (k + 1) / 2 ^ k < 2 :=
    (Nat.div_lt_iff_lt_mul (pow_pos two_pos k)).2 (by omega)
  have h4 : 1 ≤ m % 2 ^ (k + 1) / 2 ^ k ↔ 2 ^ k ≤ m % 2 ^ (k + 1) :=
    Nat.one_le_div_iff (pow_pos two_pos k)
  simp only [decide_eq_true_eq]
  omega

theorem int_negSucc_emod (m : ℕ) (n : ℤ) (hn : 0 < n) :
    (Int.negSucc m) % n = n - 1 - (m : ℤ) % n := by
  have hr0 : 0 ≤ (m : ℤ) % n := Int.emod_nonneg _ (ne_of_gt hn)
  have hrn : (m : ℤ) % n < n := Int.emod_lt_of_pos _ hn
  have hsplit : (m : ℤ) % n + n * ((m : ℤ) / n) = (m : ℤ) := Int.emod_add_ediv _ _
  have key : (Int.negSucc m : ℤ) = (n - 1 - (m : ℤ) % n) + n * (-((m : ℤ) / n) - 1) := by
    rw [Int.negSucc_eq]
    ring_nf
    linarith [hsplit]
  rw [key, Int.add_mul_emod_self_left]
  exact Int.emod_eq_of_lt (by omega) (by omega)

theorem int_testBit_iff (x : ℤ) (k : ℕ) :
    x.testBit k = true ↔ ((2 ^ k : ℕ) : ℤ) ≤ x % ((2 ^ (k + 1) : ℕ) : ℤ) := by
  cases x with
  | ofNat m =>
    show Nat.testBit m k = true ↔ _
    rw [nat_testBit_iff]
    have hmc : (Int.ofNat m) % ((2 ^ (k + 1) : ℕ) : ℤ) = ((m % 2 ^ (k + 1) : ℕ) : ℤ) := by
      show (m : ℤ) % ((2 ^ (k + 1) : ℕ) : ℤ) = _
      push_cast
      ring
    rw [hmc]
    exact_mod_cast Iff.rfl
  | negSucc m =>
    show (!(Nat.testBit m k)) = true ↔ _
    have hN : (0 : ℤ) < ((2 ^ (k + 1) : ℕ) : ℤ) := by positivity
    rw [int_negSucc_emod m _ hN]
    simp only [← Int.natCast_mod]
    have hiff := nat_testBit_iff m k
    have hlt : m % 2 ^ (k + 1) < 2 ^ (k + 1) := Nat.mod_lt _ (by positivity)
    have hp : (2 : ℕ) ^ (k + 1) = 2 ^ k * 2 := by rw [pow_succ]
    cases h : m.testBit k
    · rw [h] at hiff
      have hr : m % 2 ^ (k + 1) < 2 ^ k := by
        by_contra hc
        exact absurd (hiff.2 (by omega)) (by simp)
      refine ⟨fun _ => ?_, fun _ => rfl⟩
      rw [hp] at hr hlt ⊢
      clear hiff hN h
      generalize hP : (2 : ℕ) ^ k = P at *
      generalize hR : m % (P * 2) = R at *
      have hmul : ((P * 2 : ℕ) : ℤ) = 2 * (P : ℤ) := by push_cast; ring
      rw [hmul]
      omega
    · rw [h] at hiff
      have hr : 2 ^ k ≤ m % 2 ^ (k + 1) := hiff.1 rfl
      refine ⟨fun hcon => absurd hcon (by simp), fun hG => ?_⟩
      exfalso
      rw [hp] at hr hlt hG
      clear hiff hN h
      generalize hP : (2 : ℕ) ^ k = P at *
      generalize hR : m % (P * 2) = R at *
      have hmul : ((P * 2 : ℕ) : ℤ) = 2 * (P : ℤ) := by push_cast; ring
      rw [hmul] at hG
      omega

theorem land_pos_iff (x : ℤ) (k : ℕ) :
    (0 < Int.land x ((2 ^ k : ℕ) : ℤ)) ↔ x.testBit k = true := by
  rw [int_land_two_pow]
  cases h : x.testBit k
  · simp
  · simp only [if_true, iff_true]
    exact_mod_cast pow_pos two_pos k

theorem rx_char (x : ℤ) (k : ℕ) :
    (if 0 < Int.land x ((2 ^ k : ℕ) : ℤ) then 1 else 0)
      = (x % ((2 ^ (k + 1) : ℕ) : ℤ)).toNat / 2 ^ k := by
  have hp : (2 : ℕ) ^ (k + 1) = 2 ^ k * 2 := by rw [pow_succ]
  have hnn : 0 ≤ x % ((2 ^ (k + 1) : ℕ) : ℤ) := Int.emod_nonneg _ (by positivity)
  have hlt : x % ((2 ^ (k + 1) : ℕ) : ℤ) < ((2 ^ (k + 1) : ℕ) : ℤ) :=
    Int.emod_lt_of_pos _ (by positivity)
  have hXlt : (x % ((2 ^ (k + 1) : ℕ) : ℤ)).toNat < 2 ^ k * 2 := by omega
  by_cases h : x.testBit k = true
  · rw [if_pos ((land_pos_iff x k).2 h)]
    have hle := (int_testBit_iff x k).1 h
    have hle' : 2 ^ k ≤ (x % ((2 ^ (k + 1) : ℕ) : ℤ)).toNat := by omega
    have h1 : 1 ≤ (x % ((2 ^ (k + 1) : ℕ) : ℤ)).toNat / 2 ^ k :=
      (Nat.one_le_div_iff (pow_pos two_pos k)).2 hle'
    have h2 : (x % ((2 ^ (k + 1) : ℕ) : ℤ)).toNat / 2 ^ k < 2 :=
      (Nat.div_lt_iff_lt_mul (pow_pos two_pos k)).2 (by omega)
    omega
  · rw [if_neg (fun hpos => h ((land_pos_iff x k).1 hpos))]
    have hnle : ¬ (((2 ^ k : ℕ) : ℤ) ≤ x % ((2 ^ (k + 1) : ℕ) : ℤ)) :=
      fun hle => h ((int_testBit_iff x k).2 hle)
    have hlt' : (x % ((2 ^ (k + 1) : ℕ) : ℤ)).toNat < 2 ^ k := by omega
    exact (Nat.div_eq_of_lt hlt').symm

theorem toNat_emod_mod (y : ℤ) (k : ℕ) :
    (y % ((2 ^ (k + 1) : ℕ) : ℤ)).toNat % 2 ^ k = (y % ((2 ^ k : ℕ) : ℤ)).toNat := by
  have hdvd : ((2 ^ k : ℕ) : ℤ) ∣ ((2 ^ (k + 1) : ℕ) : ℤ) :=
    Int.natCast_dvd_natCast.2 (pow_dvd_pow 2 (Nat.le_succ k))
  have h1 : (y % ((2 ^ (k + 1) : ℕ) : ℤ)) % ((2 ^ k : ℕ) : ℤ) = y % ((2 ^ k : ℕ) : ℤ) :=
    Int.emod_emod_of_dvd y hdvd
  have h2 : 0 ≤ y % ((2 ^ (k + 1) : ℕ) : ℤ) := Int.emod_nonneg _ (by positivity)
  have h3 : 0 ≤ y % ((2 ^ k : ℕ) : ℤ) := Int.emod_nonneg _ (by positivity)
  have key : (((y % ((2 ^ (k + 1) : ℕ) : ℤ)).toNat % 2 ^ k : ℕ) : ℤ)
      = ((y % ((2 ^ k : ℕ) : ℤ)).toNat : ℤ) := by
    rw [Int.natCast_mod, Int.toNat_of_nonneg h2, Int.toNat_of_nonneg h3]
    exact h1
  exact_mod_cast key

theorem refl_emod (y : ℤ) (k : ℕ) :
    ((((2 ^ k : ℕ) : ℤ) - 1 - y) % ((2 ^ k : ℕ) : ℤ)).toNat
      = 2 ^ k - 1 - (y % ((2 ^ k : ℕ) : ℤ)).toNat := by
  have hn0 : (0 : ℤ) < ((2 ^ k : ℕ) : ℤ) := by positivity
  have hb0 : 0 ≤ y % ((2 ^ k : ℕ) : ℤ) := Int.emod_nonneg _ (ne_of_gt hn0)
  have hbn : y % ((2 ^ k : ℕ) : ℤ) < ((2 ^ k : ℕ) : ℤ) := Int.emod_lt_of_pos _ hn0
  have hsplit : y % ((2 ^ k : ℕ) : ℤ) + ((2 ^ k : ℕ) : ℤ) * (y / ((2 ^ k : ℕ) : ℤ)) = y :=
    Int.emod_add_ediv y _
  have key : ((2 ^ k : ℕ) : ℤ) - 1 - y
      = (((2 ^ k : ℕ) : ℤ) - 1 - y % ((2 ^ k : ℕ) : ℤ))
        + ((2 ^ k : ℕ) : ℤ) * (-(y / ((2 ^ k : ℕ) : ℤ))) := by linarith
  rw [key, Int.add_mul_emod_self_left, Int.emod_eq_of_lt (by omega) (by omega)]
  omega

theorem hilbertD_eq_hilbertN (k : ℕ) : ∀ x y : ℤ,
    hilbertD k x y
      = hilbertN k (x % ((2 ^ k : ℕ) : ℤ)).toNat (y % ((2 ^ k : ℕ) : ℤ)).toNat := by
  induction k with
  | zero =>
    intro x y
    rfl
  | succ k ih =>
    intro x y
    have hX1 : ∀ z : ℤ, 0 < Int.land z ((2 ^ k : ℕ) : ℤ) →
        (z % ((2 ^ (k + 1) : ℕ) : ℤ)).toNat / 2 ^ k = 1 := by
      intro z hz
      rw [← rx_char, if_pos hz]
    have hX0 : ∀ z : ℤ, ¬ 0 < Int.land z ((2 ^ k : ℕ) : ℤ) →
        (z % ((2 ^ (k + 1) : ℕ) : ℤ)).toNat / 2 ^ k = 0 := by
      intro z hz
      rw [← rx_char, if_neg hz]
    by_cases hx : 0 < Int.land x ((2 ^ k : ℕ) : ℤ) <;>
      by_cases hy : 0 < Int.land y ((2 ^ k : ℕ) : ℤ)
    · simp only [hilbertD, hilbertN, hilbertNPair, hilbertRot, hx, hy, hX1 x hx, hX1 y hy,
        if_true, if_false, one_ne_zero, ite_false, ite_true]
      rw [ih x y, toNat_emod_mod, toNat_emod_mod]
    · simp only [hilbertD, hilbertN, hilbertNPair, hilbertRot, hx, hy, hX1 x hx, hX0 y hy,
        if_true, if_false, one_ne_zero, ite_false, ite_true]
      rw [ih, refl_emod, refl_emod, toNat_emod_mod, toNat_emod_mod]
    · simp only [hilbertD, hilbertN, hilbertNPair, hilbertRot, hx, hy, hX0 x hx, hX1 y hy,
        if_true, if_false, one_ne_zero, ite_false, ite_true]
      rw [ih x y, toNat_emod_mod, toNat_emod_mod]
    · simp only [hilbertD, hilbertN, hilbertNPair, hilbertRot, hx, hy, hX0 x hx, hX0 y hy,
        if_true, if_false, one_ne_zero, zero_ne_one, ite_false, ite_true]
      rw [ih, toNat_emod_mod, toNat_emod_mod]

theorem hilbertNPair_lt (k x y : ℕ) :
    (hilbertNPair k x y).1 < 2 ^ k ∧ (hilbertNPair k x y).2 < 2 ^ k := by
  have hM : 0 < 2 ^ k := pow_pos two_pos k
  have h1 : x % 2 ^ k < 2 ^ k := Nat.mod_lt _ hM
  have h2 : y % 2 ^ k < 2 ^ k := Nat.mod_lt _ hM
  unfold hilbertNPair
  split_ifs <;> exact ⟨by omega, by omega⟩

theorem hilbertN_lt (k : ℕ) : ∀ x y : ℕ, x < 2 ^ k → y < 2 ^ k →
    hilbertN k x y < 2 ^ k * 2 ^ k := by
  induction k with
  | zero =>
    intro x y hx hy
    simp [hilbertN]
  | succ k ih =>
    intro x y hx hy
    have hp : (2 : ℕ) ^ (k + 1) = 2 ^ k * 2 := pow_succ 2 k
    have hM : 0 < 2 ^ k := pow_pos two_pos k
    have hrx : x / 2 ^ k < 2 := (Nat.div_lt_iff_lt_mul hM).2 (by omega)
    have hry : y / 2 ^ k < 2 := (Nat.div_lt_iff_lt_mul hM).2 (by omega)
    have hq : (3 * (x / 2 ^ k)) ^^^ (y / 2 ^ k) < 4 := by
      have h3 : 3 * (x / 2 ^ k) < 2 ^ 2 := by omega
      have h4 : y / 2 ^ k < 2 ^ 2 := by omega
      exact Nat.xor_lt_two_pow h3 h4
    have hpair := hilbertNPair_lt k x y
    have hrec := ih (hilbertNPair k x y).1 (hilbertNPair k x y).2 hpair.1 hpair.2
    have hgoal : 2 ^ (k + 1) * 2 ^ (k + 1) = 4 * (2 ^ k * 2 ^ k) := by
      rw [hp]
      ring
    simp only [hilbertN]
    rw [hgoal]
    set M := 2 ^ k * 2 ^ k
    set q := (3 * (x / 2 ^ k)) ^^^ (y / 2 ^ k)
    have hqle : q ≤ 3 := by omega
    have hprod : M * q ≤ M * 3 := Nat.mul_le_mul_left M hqle
    omega

theorem mul_add_lt_cancel {M q1 q2 r1 r2 : ℕ} (h1 : r1 < M) (h2 : r2 < M)
    (heq : M * q1 + r1 = M * q2 + r2) : q1 = q2 ∧ r1 = r2 := by
  have hq : q1 = q2 := by
    rcases Nat.lt_trichotomy q1 q2 with h | h | h
    · exfalso
      have hle : M * (q1 + 1) ≤ M * q2 := Nat.mul_le_mul_left M h
      have hexp : M * (q1 + 1) = M * q1 + M := by ring
      omega
    · exact h
    · exfalso
      have hle : M * (q2 + 1) ≤ M * q1 := Nat.mul_le_mul_left M h
      have hexp : M * (q2 + 1) = M * q2 + M := by ring
      omega
  subst hq
  omega

theorem qf_inj {rx1 ry1 rx2 ry2 : ℕ} (h1 : rx1 ≤ 1) (h2 : ry1 ≤ 1) (h3 : rx2 ≤ 1)
    (h4 : ry2 ≤ 1) (heq : (3 * rx1) ^^^ ry1 = (3 * rx2) ^^^ ry2) :
    rx1 = rx2 ∧ ry1 = ry2 := by
  interval_cases rx1 <;> interval_cases ry1 <;> interval_cases rx2 <;>
    interval_cases ry2 <;> revert heq <;> decide

theorem hilbertN_inj (k : ℕ) : ∀ x1 y1 x2 y2 : ℕ, x1 < 2 ^ k → y1 < 2 ^ k →
    x2 < 2 ^ k → y2 < 2 ^ k → hilbertN k x1 y1 = hilbertN k x2 y2 →
    x1 = x2 ∧ y1 = y2 := by
  induction k with
  | zero =>
    intro x1 y1 x2 y2 h1 h2 h3 h4 _
    simp only [pow_zero] at h1 h2 h3 h4
    omega
  | succ k ih =>
    intro x1 y1 x2 y2 h1 h2 h3 h4 heq
    have hM : 0 < 2 ^ k := pow_pos two_pos k
    have hp : (2 : ℕ) ^ (k + 1) = 2 ^ k * 2 := pow_succ 2 k
    have hd1 : x1 / 2 ^ k ≤ 1 := by
      have := (Nat.div_lt_iff_lt_mul hM).2 (show x1 < 2 * 2 ^ k by omega)
      omega
    have hd2 : y1 / 2 ^ k ≤ 1 := by
      have := (Nat.div_lt_iff_lt_mul hM).2 (show y1 < 2 * 2 ^ k by omega)
      omega
    have hd3 : x2 / 2 ^ k ≤ 1 := by
      have := (Nat.div_lt_iff_lt_mul hM).2 (show x2 < 2 * 2 ^ k by omega)
      omega
    have hd4 : y2 / 2 ^ k ≤ 1 := by
      have := (Nat.div_lt_iff_lt_mul hM).2 (show y2 < 2 * 2 ^ k by omega)
      omega
    have hpair1 := hilbertNPair_lt k x1 y1
    have hpair2 := hilbertNPair_lt k x2 y2
    have hr1 := hilbertN_lt k _ _ hpair1.1 hpair1.2
    have hr2 := hilbertN_lt k _ _ hpair2.1 hpair2.2
    simp only [hilbertN] at heq
    obtain ⟨hq, hr⟩ := mul_add_lt_cancel hr1 hr2 heq
    obtain ⟨hrx, hry⟩ := qf_inj hd1 hd2 hd3 hd4 hq
    obtain ⟨hfst, hsnd⟩ := ih _ _ _ _ hpair1.1 hpair1.2 hpair2.1 hpair2.2 hr
    have hm1 : x1 % 2 ^ k < 2 ^ k := Nat.mod_lt _ hM
    have hm2 : y1 % 2 ^ k < 2 ^ k := Nat.mod_lt _ hM
    have hm3 : x2 % 2 ^ k < 2 ^ k := Nat.mod_lt _ hM
    have hm4 : y2 % 2 ^ k < 2 ^ k := Nat.mod_lt _ hM
    have hx1d : 2 ^ k * (x1 / 2 ^ k) + x1 % 2 ^ k = x1 := Nat.div_add_mod x1 (2 ^ k)
    have hx2d : 2 ^ k * (x2 / 2 ^ k) + x2 % 2 ^ k = x2 := Nat.div_add_mod x2 (2 ^ k)
    have hy1d : 2 ^ k * (y1 / 2 ^ k) + y1 % 2 ^ k = y1 := Nat.div_add_mod y1 (2 ^ k)
    have hy2d : 2 ^ k * (y2 / 2 ^ k) + y2 % 2 ^ k = y2 := Nat.div_add_mod y2 (2 ^ k)
    by_cases hY : y1 / 2 ^ k = 0
    · have hY2 : y2 / 2 ^ k = 0 := hry ▸ hY
      rw [hY] at hy1d
      rw [hY2] at hy2d
      by_cases hX : x1 / 2 ^ k = 1
      · have hX2 : x2 / 2 ^ k = 1 := hrx ▸ hX
        rw [hX] at hx1d
        rw [hX2] at hx2d
        simp [hilbertNPair, hY, hY2, hX, hX2] at hfst hsnd
        omega
      · have hX0 : x1 / 2 ^ k = 0 := by
          rcases Nat.le_one_iff_eq_zero_or_eq_one.1 hd1 with h0 | h1'
          · exact h0
          · exact absurd h1' hX
        have hX2 : x2 / 2 ^ k = 0 := hrx ▸ hX0
        rw [hX0] at hx1d
        rw [hX2] at hx2d
        simp [hilbertNPair, hY, hY2, hX0, hX2] at hfst hsnd
        omega
    · have hY1 : y1 / 2 ^ k = 1 := by
        rcases Nat.le_one_iff_eq_zero_or_eq_one.1 hd2 with h0 | h1'
        · exact absurd h0 hY
        · exact h1'
      have hY2 : y2 / 2 ^ k = 1 := hry ▸ hY1
      rw [hY1] at hy1d
      rw [hY2] at hy2d
      rw [hrx] at hx1d
      simp [hilbertNPair, hY1, hY2] at hfst hsnd
      omega

theorem hilbertN_surj (k : ℕ) : ∀ d : ℕ, d < 2 ^ k * 2 ^ k →
    ∃ x y : ℕ, x < 2 ^ k ∧ y < 2 ^ k ∧ hilbertN k x y = d := by
  induction k with
  | zero =>
    intro d hd
    refine ⟨0, 0, by norm_num, by norm_num, ?_⟩
    simp only [hilbertN]
    omega
  | succ k ih =>
    intro d hd
    have hMp : 0 < 2 ^ k := pow_pos two_pos k
    have hM : 0 < 2 ^ k * 2 ^ k := by positivity
    have hp : (2 : ℕ) ^ (k + 1) = 2 ^ k * 2 := pow_succ 2 k
    set M := 2 ^ k * 2 ^ k with hMdef
    have hd4 : d < 4 * M := by
      have hexp : 2 ^ (k + 1) * 2 ^ (k + 1) = 4 * M := by rw [hp, hMdef]; ring
      omega
    have hq4 : d / M < 4 := (Nat.div_lt_iff_lt_mul hM).2 hd4
    have hq0 : 0 ≤ d / M := Nat.zero_le _
    have hr : d % M < M := Nat.mod_lt _ hM
    obtain ⟨x', y', hx', hy', hxy⟩ := ih (d % M) hr
    have hdm : M * (d / M) + d % M = d := Nat.div_add_mod d M
    have hqv : d / M = 0 ∨ d / M = 1 ∨ d / M = 2 ∨ d / M = 3 := by omega
    rcases hqv with h | h | h | h
    · refine ⟨y', x', by omega, by omega, ?_⟩
      have e1 : y' / 2 ^ k = 0 := Nat.div_eq_of_lt hy'
      have e2 : x' / 2 ^ k = 0 := Nat.div_eq_of_lt hx'
      have e3 : y' % 2 ^ k = y' := Nat.mod_eq_of_lt hy'
      have e4 : x' % 2 ^ k = x' := Nat.mod_eq_of_lt hx'
      simp only [hilbertN, hilbertNPair, e1, e2, e3, e4, Nat.mul_zero, Nat.zero_xor,
        zero_ne_one, ite_true, ite_false, if_true, if_false]
      rw [h] at hdm
      simp only [hxy]
      omega
    · refine ⟨x', 2 ^ k + y', by omega, by omega, ?_⟩
      have e1 : (2 ^ k + y') / 2 ^ k = 1 := by
        rw [show 2 ^ k + y' = 2 ^ k * 1 + y' by ring, Nat.mul_add_div hMp,
          Nat.div_eq_of_lt hy']
      have e2 : (2 ^ k + y') % 2 ^ k = y' := by
        rw [show 2 ^ k + y' = 2 ^ k * 1 + y' by ring, Nat.mul_add_mod,
          Nat.mod_eq_of_lt hy']
      have e3 : x' / 2 ^ k = 0 := Nat.div_eq_of_lt hx'
      have e4 : x' % 2 ^ k = x' := Nat.mod_eq_of_lt hx'
      simp only [hilbertN, hilbertNPair, e1, e2, e3, e4, Nat.mul_zero, Nat.zero_xor,
        one_ne_zero, ite_true, ite_false, if_true, if_false]
      rw [h] at hdm
      simp only [hxy]
      omega
    · refine ⟨2 ^ k + x', 2 ^ k + y', by omega, by omega, ?_⟩
      have e1 : (2 ^ k + x') / 2 ^ k = 1 := by
        rw [show 2 ^ k + x' = 2 ^ k * 1 + x' by ring, Nat.mul_add_div hMp,
          Nat.div_eq_of_lt hx']
      have e2 : (2 ^ k + x') % 2 ^ k = x' := by
        rw [show 2 ^ k + x' = 2 ^ k * 1 + x' by ring, Nat.mul_add_mod,
          Nat.mod_eq_of_lt hx']
      have e3 : (2 ^ k + y') / 2 ^ k = 1 := by
        rw [show 2 ^ k + y' = 2 ^ k * 1 + y' by ring, Nat.mul_add_div hMp,
          Nat.div_eq_of_lt hy']
      have e4 : (2 ^ k + y') % 2 ^ k = y' := by
        rw [show 2 ^ k + y' = 2 ^ k * 1 + y' by ring, Nat.mul_add_mod,
          Nat.mod_eq_of_lt hy']
      have exor : (3 * 1) ^^^ 1 = 2 := by decide
      simp only [hilbertN, hilbertNPair, e1, e2, e3, e4, exor,
        one_ne_zero, ite_true, ite_false, if_true, if_false]
      rw [h] at hdm
      simp only [hxy]
      omega
    · refine ⟨2 ^ k + (2 ^ k - 1 - y'), 2 ^ k - 1 - x', by omega, by omega, ?_⟩
      have hin : 2 ^ k - 1 - y' < 2 ^ k := by omega
      have hin2 : 2 ^ k - 1 - x' < 2 ^ k := by omega
      have e1 : (2 ^ k + (2 ^ k - 1 - y')) / 2 ^ k = 1 := by
        rw [show 2 ^ k + (2 ^ k - 1 - y') = 2 ^ k * 1 + (2 ^ k - 1 - y') by ring,
          Nat.mul_add_div hMp, Nat.div_eq_of_lt hin]
      have e2 : (2 ^ k + (2 ^ k - 1 - y')) % 2 ^ k = 2 ^ k - 1 - y' := by
        rw [show 2 ^ k + (2 ^ k - 1 - y') = 2 ^ k * 1 + (2 ^ k - 1 - y') by ring,
          Nat.mul_add_mod, Nat.mod_eq_of_lt hin]
      have e3 : (2 ^ k - 1 - x') / 2 ^ k = 0 := Nat.div_eq_of_lt hin2
      have e4 : (2 ^ k - 1 - x') % 2 ^ k = 2 ^ k - 1 - x' := Nat.mod_eq_of_lt hin2
      have f1 : 2 ^ k - 1 - (2 ^ k - 1 - x') = x' := by omega
      have f2 : 2 ^ k - 1 - (2 ^ k - 1 - y') = y' := by omega
      have exor : (3 * 1) ^^^ 0 = 3 := by decide
      simp only [hilbertN, hilbertNPair, e1, e2, e3, e4, f1, f2, exor,
        one_ne_zero, ite_true, ite_false, if_true, if_false]
      rw [h] at hdm
      simp only [hxy]
      omega

theorem zoomOffset_succ (z : ℕ) : zoomOffset (z + 1) = zoomOffset z + 2 ^ z * 2 ^ z := by
  unfold zoomOffset
  rw [List.range_succ, List.foldl_append]
  simp [Nat.shiftLeft_eq]

theorem zoomOffset_eq_sum (z : ℕ) : zoomOffset z = ∑ i ∈ Finset.range z, 4 ^ i := by
  induction z with
  | zero => rfl
  | succ z ih =>
    rw [zoomOffset_succ, Finset.sum_range_succ, ih]
    congr 1
    rw [← mul_pow]
    norm_num

theorem zxy_eq (z x y : ℕ) (hx : x < 2 ^ z) (hy : y < 2 ^ z) :
    zxyToTileId z x y = zoomOffset z + hilbertN z x y := by
  unfold zxyToTileId
  by_cases hz : z = 0
  · subst hz
    simp [zoomOffset, hilbertN]
  · rw [if_neg hz]
    congr 1
    rw [hilbertD_eq_hilbertN]
    have hex : ((x : ℤ)) % ((2 ^ z : ℕ) : ℤ) = (x : ℤ) :=
      Int.emod_eq_of_lt (by positivity) (by exact_mod_cast hx)
    have hey : ((y : ℤ)) % ((2 ^ z : ℕ) : ℤ) = (y : ℤ) :=
      Int.emod_eq_of_lt (by positivity) (by exact_mod_cast hy)
    rw [hex, hey, Int.toNat_natCast, Int.toNat_natCast]

/-- Claim C2: for every zoom `z ≤ 22` the map
`(x, y) ↦ _zxy_to_tile_id(z, x, y) - Σ_i<z 4^i` is a bijection from
`[0, 2^z) × [0, 2^z)` onto `[0, 4^z)`, and tile ids are zoom-major: every id
produced at zoom `z` lies in `[Σ_i<z 4^i, Σ_i≤z 4^i)`
(`zoomOffset z = Σ_i<z 4^i` by `zoomOffset_eq_sum`). -/
theorem C2_hilbert_tileId_bijection (z : ℕ) (hz : z ≤ 22) :
    Set.BijOn (fun p : ℕ × ℕ => zxyToTileId z p.1 p.2 - zoomOffset z)
      (Set.Iio (2 ^ z) ×ˢ Set.Iio (2 ^ z)) (Set.Iio (4 ^ z)) ∧
    ∀ x y : ℕ, x < 2 ^ z → y < 2 ^ z →
      zoomOffset z ≤ zxyToTileId z x y ∧ zxyToTileId z x y < zoomOffset (z + 1) := by
  have h4 : (4 : ℕ) ^ z = 2 ^ z * 2 ^ z := by
    rw [show (4 : ℕ) = 2 * 2 by norm_num, mul_pow]
  constructor
  · refine ⟨?_, ?_, ?_⟩
    · rintro ⟨x, y⟩ ⟨hx, hy⟩
      simp only [Set.mem_Iio] at hx hy ⊢
      rw [zxy_eq z x y hx hy, Nat.add_sub_cancel_left, h4]
      exact hilbertN_lt z x y hx hy
    · rintro ⟨x1, y1⟩ ⟨hx1, hy1⟩ ⟨x2, y2⟩ ⟨hx2, hy2⟩ heq
      simp only [Set.mem_Iio] at hx1 hy1 hx2 hy2
      simp only at heq
      rw [zxy_eq z x1 y1 hx1 hy1, zxy_eq z x2 y2 hx2 hy2,
        Nat.add_sub_cancel_left, Nat.add_sub_cancel_left] at heq
      obtain ⟨hx, hy⟩ := hilbertN_inj z _ _ _ _ hx1 hy1 hx2 hy2 heq
      exact Prod.ext hx hy
    · intro d hd
      simp only [Set.mem_Iio] at hd
      rw [h4] at hd
      obtain ⟨x, y, hx, hy, hxy⟩ := hilbertN_surj z d hd
      refine ⟨(x, y), ⟨Set.mem_Iio.2 hx, Set.mem_Iio.2 hy⟩, ?_⟩
      simp only
      rw [zxy_eq z x y hx hy, Nat.add_sub_cancel_left]
      exact hxy
  · intro x y hx hy
    rw [zxy_eq z x y hx hy]
    refine ⟨Nat.le_add_right _ _, ?_⟩
    rw [zoomOffset_succ]
    have := hilbertN_lt z x y hx hy
    omega

/-! ### The header parse bug and the round trip (Claim C1) -/

theorem headerFmt_calcsize : structCalcsize headerFmt = 126 := rfl

/-- `_read_header` reads only 119 bytes but unpacks a 126-byte format, so the
unpack step fails on every input. -/
theorem readHeaderS_error (file : List ℕ) :
    ∃ e, readHeaderS file = .error e := by
  unfold readHeaderS
  split
  · exact ⟨_, rfl⟩
  · rcases hv : structUnpack [SItem.ub] ((file.drop 7).take 1) with e | vvals
    · exact ⟨e, rfl⟩
    · simp only
      split
      · exact ⟨_, rfl⟩
      · have hlen : ((file.drop 8).take 119).length ≠ structCalcsize headerFmt := by
          have h1 : ((file.drop 8).take 119).length ≤ 119 := by
            rw [List.length_take]
            omega
          rw [headerFmt_calcsize]
          omega
        have hbad : structUnpack headerFmt ((file.drop 8).take 119)
            = .error .structErr := by
          unfold structUnpack
          rw [if_neg hlen]
        rw [hbad]
        exact ⟨_, rfl⟩

/-- Even a file with correct magic and version fails in `_read_header` with a
`struct.error`. -/
theorem readHeaderS_well_formed_file_fails :
    readHeaderS (pmMagicBytes ++ 3 :: List.replicate 119 0)
      = .error PyErr.structErr := rfl

/-- Claim C1 (code bug): the archive round trip is impossible — for every
file whatsoever, `PMTilesReader.get_tile` raises (the constructor's
`_read_header` unpacks the 126-byte, 25-value format
`<QQQQQQQQQQQBBBBBB3xiiiiiBii` from a 119-byte read into 24 variables), so
the decoder can never return the bytes written for any coordinate. -/
theorem C1_get_tile_never_returns (file : List ℕ)
    (brotliF zstdF : Option (List ℕ → Except PyErr (List ℕ))) (z x y : ℕ) :
    ∃ e, getTileS file brotliF zstdF z x y = .error e := by
  obtain ⟨e, he⟩ := readHeaderS_error file
  refine ⟨e, ?_⟩
  unfold getTileS
  rw [he]

/-- Concrete instance discharging Claim C2's hypothesis at zoom 1. -/
theorem C2_hilbert_tileId_bijection_wit :
    1 ≤ 22 ∧
    (Set.BijOn (fun p : ℕ × ℕ => zxyToTileId 1 p.1 p.2 - zoomOffset 1)
      (Set.Iio (2 ^ 1) ×ˢ Set.Iio (2 ^ 1)) (Set.Iio (4 ^ 1)) ∧
    ∀ x y : ℕ, x < 2 ^ 1 → y < 2 ^ 1 →
      zoomOffset 1 ≤ zxyToTileId 1 x y ∧ zxyToTileId 1 x y < zoomOffset (1 + 1)) :=
  ⟨by norm_num, C2_hilbert_tileId_bijection 1 (by norm_num)⟩

/-! ### Totality of the protobuf layer walk (Claim C6) -/

theorem readVarintLAux_bounds (data : List ℕ) : ∀ fuel pos result shift,
    pos ≤ (readVarintLAux data fuel pos result shift).2 ∧
    ((readVarintLAux data fuel pos result shift).1.isSome →
      pos + 1 ≤ (readVarintLAux data fuel pos result shift).2) := by
  intro fuel
  induction fuel with
  | zero =>
    intro pos result shift
    simp [readVarintLAux]
  | succ fuel ih =>
    intro pos result shift
    simp only [readVarintLAux]
    split
    · split
      · simp
      · split
        · simp
        · obtain ⟨h1, h2⟩ := ih (pos + 1)
            (result ||| ((data.getD pos 0 &&& 0x7F) <<< shift)) (shift + 7)
          refine ⟨by omega, fun hs => by have := h2 hs; omega⟩
    · simp

theorem readVarintL_bounds (data : List ℕ) (pos : ℕ) :
    pos ≤ (readVarintL data pos).2 ∧
    ((readVarintL data pos).1.isSome → pos + 1 ≤ (readVarintL data pos).2) :=
  readVarintLAux_bounds data _ pos 0 0

theorem skipField_ge (data : List ℕ) (pos : ℕ) (w : ℕ) (pos' : ℕ)
    (h : skipField data pos w = some pos') : pos ≤ pos' := by
  have hb := (readVarintL_bounds data pos).1
  unfold skipField at h
  split_ifs at h
  · simp only [Option.some.injEq] at h
    omega
  · simp only [Option.some.injEq] at h
    omega
  · rcases hr : readVarintL data pos with ⟨v, p2⟩
    rw [hr] at h hb
    cases v with
    | none => simp at h
    | some len =>
      simp only [Option.some.injEq] at h
      simp only at hb
      omega
  · simp only [Option.some.injEq] at h
    omega

theorem parseLayerLoop_total (layerData : List ℕ) : ∀ fuel pos name fc,
    layerData.length - pos < fuel →
    (parseLayerLoop layerData fuel pos name fc).isSome := by
  intro fuel
  induction fuel with
  | zero =>
    intro pos name fc h
    exact absurd h (Nat.not_lt_zero _)
  | succ fuel ih =>
    intro pos name fc h
    simp only [parseLayerLoop]
    split
    · next hpos =>
      split
      · rcases hr : readVarintL layerData (pos + 1) with ⟨v, pos2⟩
        have hb := readVarintL_bounds layerData (pos + 1)
        rw [hr] at hb
        cases v with
        | none => simp [hr]
        | some len =>
          have hge : pos + 2 ≤ pos2 := hb.2 (by simp)
          dsimp only
          split
          · simp
          · exact ih (pos2 + len) _ _ (by omega)
      · split
        · rcases hr : readVarintL layerData (pos + 1) with ⟨v, pos2⟩
          have hb := readVarintL_bounds layerData (pos + 1)
          rw [hr] at hb
          cases v with
          | none => simp [hr]
          | some len =>
            have hge : pos + 2 ≤ pos2 := hb.2 (by simp)
            dsimp only
            exact ih (pos2 + len) _ _ (by omega)
        · rcases hs : skipField layerData (pos + 1) (layerData.getD pos 0 &&& 0x07)
            with _ | pos'
          · simp
          · have hge := skipField_ge _ _ _ _ hs
            exact ih pos' _ _ (by omega)
    · simp

theorem parseLayer_isSome (layerData : List ℕ) : (parseLayer layerData).isSome := by
  unfold parseLayer
  have htot := parseLayerLoop_total layerData (layerData.length + 1) 0 none 0 (by omega)
  rcases hp : parseLayerLoop layerData (layerData.length + 1) 0 none 0 with _ | ⟨nm, fc⟩
  · rw [hp] at htot
    simp at htot
  · simp

theorem extractLayerNamesLoop_total (content : List ℕ) : ∀ fuel pos acc,
    content.length - pos < fuel →
    (extractLayerNamesLoop content fuel pos acc).isSome := by
  intro fuel
  induction fuel with
  | zero =>
    intro pos acc h
    exact absurd h (Nat.not_lt_zero _)
  | succ fuel ih =>
    intro pos acc h
    simp only [extractLayerNamesLoop]
    split
    · next hpos =>
      split
      · rcases hr : readVarintL content (pos + 1) with ⟨v, pos2⟩
        have hb := readVarintL_bounds content (pos + 1)
        rw [hr] at hb
        cases v with
        | none => simp [hr]
        | some len =>
          have hge : pos + 2 ≤ pos2 := hb.2 (by simp)
          dsimp only
          split
          · simp
          · obtain ⟨li, hli⟩ := Option.isSome_iff_exists.mp
              (parseLayer_isSome ((content.drop pos2).take len))
            rw [hli]
            exact ih (pos2 + len) _ (by omega)
      · rcases hs : skipField content (pos + 1) (content.getD pos 0 &&& 0x07)
          with _ | pos'
        · simp
        · have hge := skipField_ge _ _ _ _ hs
          exact ih pos' _ (by omega)
    · simp

/-- Claim C6: `extract_layer_names_protobuf` terminates normally on every
byte input — truncated, malformed or arbitrary — returning the names
extracted so far, and never raises: the embedded walker always produces a
result (its fuel, the content length plus one, is proved sufficient, and
every partial-input case exits the loop with the accumulator). -/
theorem C6_extract_layer_names_total (tileContent : List ℕ) :
    ∃ names, extractLayerNamesProtobuf tileContent = some names := by
  unfold extractLayerNamesProtobuf
  exact Option.isSome_iff_exists.mp
    (extractLayerNamesLoop_total (decompressTile tileContent) _ 0 [] (by omega))

/-! ### Fetcher totality and partial-failure reporting (Claim C7) -/

theorem fetchTileLoop_spec (coord : TileCoord) (resp : ℕ → Attempt) :
    ∀ remaining attempt,
    (fetchTileLoop coord resp remaining attempt).coord = coord ∧
    ((fetchTileLoop coord resp remaining attempt).content ≠ none →
      (fetchTileLoop coord resp remaining attempt).status = some 200 ∧
      ∃ k body, resp k = .response 200 body ∧
        (fetchTileLoop coord resp remaining attempt).content = some body) := by
  intro remaining
  induction remaining with
  | zero =>
    intro attempt
    exact ⟨rfl, fun hc => absurd rfl hc⟩
  | succ remaining ih =>
    intro attempt
    simp only [fetchTileLoop]
    rcases hr : resp attempt with ⟨s, body⟩ | _ | m
    · dsimp only
      split_ifs with h200 hauth h404 hrem
      · subst h200
        exact ⟨rfl, fun _ => ⟨rfl, attempt, body, hr, rfl⟩⟩
      · exact ⟨rfl, fun hc => absurd rfl hc⟩
      · exact ⟨rfl, fun hc => absurd rfl hc⟩
      · exact ih (attempt + 1)
      · exact ⟨rfl, fun hc => absurd rfl hc⟩
    · dsimp only
      split_ifs with hrem
      · exact ih (attempt + 1)
      · exact ⟨rfl, fun hc => absurd rfl hc⟩
    · dsimp only
      split_ifs with hrem
      · exact ih (attempt + 1)
      · exact ⟨rfl, fun hc => absurd rfl hc⟩

theorem fetchTile_spec (coord : TileCoord) (resp : ℕ → Attempt) (maxRetries : ℕ) :
    (fetchTile coord resp maxRetries).coord = coord ∧
    ((fetchTile coord resp maxRetries).content ≠ none →
      (fetchTile coord resp maxRetries).status = some 200 ∧
      ∃ k body, resp k = .response 200 body ∧
        (fetchTile coord resp maxRetries).content = some body) :=
  fetchTileLoop_spec coord resp (maxRetries + 1) 0

/-- Claim C7: `fetch_tiles` returns exactly one `FetchResult` per requested
coordinate, whatever the completion order; each result carries its own
coordinate; and an individual failure never escapes as an exception — any
result with content carries status 200 and the body of a 200 response, so
every failed tile is reported as a `FetchResult` with `content = None`. -/
theorem C7_fetch_tiles_totality (resp : TileCoord → ℕ → Attempt) (maxRetries : ℕ)
    (coords completionOrder : List TileCoord)
    (hperm : completionOrder.Perm coords) :
    (fetchTiles resp maxRetries completionOrder).length = coords.length ∧
    ((fetchTiles resp maxRetries completionOrder).map (fun r => r.coord)).Perm coords ∧
    ∀ r ∈ fetchTiles resp maxRetries completionOrder,
      (r.content ≠ none → r.status = some 200 ∧
        ∃ k body, resp r.coord k = .response 200 body ∧ r.content = some body) ∧
      (r.success = false → r.content = none) := by
  have hcoords : ∀ c, (fetchTile c (resp c) maxRetries).coord = c :=
    fun c => (fetchTile_spec c (resp c) maxRetries).1
  have hmap : (fetchTiles resp maxRetries completionOrder).map (fun r => r.coord)
      = completionOrder := by
    unfold fetchTiles
    rw [List.map_map]
    have : ((fun r : FetchResult => r.coord) ∘ fun c => fetchTile c (resp c) maxRetries)
        = fun c => c := by
      funext c
      exact hcoords c
    rw [this]
    simp
  refine ⟨?_, ?_, ?_⟩
  · unfold fetchTiles
    rw [List.length_map]
    exact hperm.length_eq
  · rw [hmap]
    exact hperm
  · intro r hr
    obtain ⟨c, hc, hceq⟩ := List.mem_map.mp hr
    subst hceq
    have hspec := fetchTile_spec c (resp c) maxRetries
    constructor
    · intro hcontent
      obtain ⟨hstat, k, body, hk, hbody⟩ := hspec.2 hcontent
      rw [hspec.1]
      exact ⟨hstat, k, body, hk, hbody⟩
    · intro hfail
      by_contra hcontent
      obtain ⟨hstat, _, _, _, _⟩ := hspec.2 hcontent
      unfold FetchResult.success at hfail
      rw [hstat] at hfail
      rcases hco : (fetchTile c (resp c) maxRetries).content with _ | b
      · exact hcontent hco
      · rw [hco] at hfail
        simp at hfail

/-- Concrete instance discharging Claim C7's permutation hypothesis: two
coordinates completing in reversed order, one 200 and one 404. -/
theorem C7_fetch_tiles_totality_wit :
    ([TileCoord.mk 2 1 1, TileCoord.mk 1 0 0].Perm
      [TileCoord.mk 1 0 0, TileCoord.mk 2 1 1]) ∧
    ((fetchTiles (fun (c : TileCoord) (_ : ℕ) => if c.z = 1 then Attempt.response 200 [7]
        else Attempt.response 404 []) 2
        [TileCoord.mk 2 1 1, TileCoord.mk 1 0 0]).length
      = [TileCoord.mk 1 0 0, TileCoord.mk 2 1 1].length ∧
    ((fetchTiles (fun (c : TileCoord) (_ : ℕ) => if c.z = 1 then Attempt.response 200 [7]
        else Attempt.response 404 []) 2
        [TileCoord.mk 2 1 1, TileCoord.mk 1 0 0]).map (fun r => r.coord)).Perm
      [TileCoord.mk 1 0 0, TileCoord.mk 2 1 1] ∧
    ∀ r ∈ fetchTiles (fun (c : TileCoord) (_ : ℕ) => if c.z = 1 then Attempt.response 200 [7]
        else Attempt.response 404 []) 2
        [TileCoord.mk 2 1 1, TileCoord.mk 1 0 0],
      (r.content ≠ none → r.status = some 200 ∧
        ∃ (k : ℕ) (body : List ℕ),
          (fun (c : TileCoord) (_ : ℕ) => if c.z = 1 then Attempt.response 200 [7]
            else Attempt.response 404 []) r.coord k = .response 200 body ∧
          r.content = some body) ∧
      (r.success = false → r.content = none)) :=
  ⟨by decide,
   C7_fetch_tiles_totality
     (fun (c : TileCoord) (_ : ℕ) => if c.z = 1 then Attempt.response 200 [7]
       else Attempt.response 404 []) 2
     [TileCoord.mk 1 0 0, TileCoord.mk 2 1 1]
     [TileCoord.mk 2 1 1, TileCoord.mk 1 0 0] (by decide)⟩


/-! ### `tiles_for_bounds` vs `count_tiles_for_bounds` (Claim C3) -/

theorem arsinh_one_bounds : 0 < Real.arsinh 1 ∧ Real.arsinh 1 < Real.pi := by
  constructor
  · exact Real.arsinh_pos_iff.mpr one_pos
  · have h1 : Real.arsinh 1 = Real.log (1 + Real.sqrt 2) := by
      rw [Real.arsinh]
      norm_num
    have h2 : Real.log (1 + Real.sqrt 2) ≤ Real.sqrt 2 := by
      have := Real.log_le_sub_one_of_pos
        (x := 1 + Real.sqrt 2) (by positivity)
      linarith
    have h3 : Real.sqrt 2 < 2 := (Real.sqrt_lt' (by norm_num)).mpr (by norm_num)
    have h4 := Real.pi_gt_three
    linarith

theorem lon_to_tile_x_eval0 : lon_to_tile_x 0 0 = 0 := by
  unfold lon_to_tile_x pyInt
  rw [if_pos (by norm_num)]
  rw [Int.floor_eq_zero_iff.mpr (by rw [Set.mem_Ico]; norm_num)]

theorem lon_to_tile_x_eval1 : lon_to_tile_x 1 0 = 0 := by
  unfold lon_to_tile_x pyInt
  rw [if_pos (by norm_num)]
  rw [Int.floor_eq_zero_iff.mpr (by rw [Set.mem_Ico]; norm_num)]

theorem lon_to_tile_x_eval179 : lon_to_tile_x 179 0 = 0 := by
  unfold lon_to_tile_x pyInt
  rw [if_pos (by norm_num)]
  rw [Int.floor_eq_zero_iff.mpr (by rw [Set.mem_Ico]; norm_num)]

theorem lon_to_tile_x_eval180 : lon_to_tile_x 180 0 = 1 := by
  unfold lon_to_tile_x pyInt
  rw [if_pos (by norm_num)]
  norm_num

theorem lat_to_tile_y_eval0 : lat_to_tile_y 0 0 = 0 := by
  unfold lat_to_tile_y pyInt
  simp only [pow_zero, Nat.cast_one, mul_one]
  rw [show (0 : ℝ) * Real.pi / 180 = 0 by ring, Real.tan_zero, Real.arsinh_zero,
    zero_div, sub_zero]
  rw [if_pos (by norm_num)]
  rw [Int.floor_eq_zero_iff.mpr (by rw [Set.mem_Ico]; norm_num)]

theorem lat_to_tile_y_eval45 : lat_to_tile_y 45 0 = 0 := by
  unfold lat_to_tile_y pyInt
  simp only [pow_zero, Nat.cast_one, mul_one]
  rw [show (45 : ℝ) * Real.pi / 180 = Real.pi / 4 by ring, Real.tan_pi_div_four]
  obtain ⟨ha1, ha2⟩ := arsinh_one_bounds
  have hpi : (0 : ℝ) < Real.pi := Real.pi_pos
  have hd0 : 0 < Real.arsinh 1 / Real.pi := div_pos ha1 hpi
  have hd1 : Real.arsinh 1 / Real.pi < 1 := (div_lt_one hpi).mpr ha2
  rw [if_pos (by linarith)]
  rw [Int.floor_eq_zero_iff.mpr (by rw [Set.mem_Ico]; constructor <;> linarith)]

theorem tiles_for_bounds_eval01 :
    tiles_for_bounds ⟨0, 0, 1, 45⟩ 0 = [⟨0, 0, 0⟩] := by
  simp only [tiles_for_bounds, lon_to_tile_x_eval0, lon_to_tile_x_eval1,
    lat_to_tile_y_eval0, lat_to_tile_y_eval45]
  decide

/-- Claim C3, counterexample: for the bounds west 179, south 0, east 180,
north 45 at zoom 0, `tiles_for_bounds` yields one tile (its x-range is
clamped to `[0, 0]`) while `count_tiles_for_bounds`, which performs no
clamping, reports two. -/
theorem C3_tiles_count_cex :
    (tiles_for_bounds ⟨179, 0, 180, 45⟩ 0).length = 1 ∧
    count_tiles_for_bounds ⟨179, 0, 180, 45⟩ 0 = 2 := by
  constructor
  · simp only [tiles_for_bounds, lon_to_tile_x_eval179, lon_to_tile_x_eval180,
      lat_to_tile_y_eval0, lat_to_tile_y_eval45]
    decide
  · simp only [count_tiles_for_bounds, lon_to_tile_x_eval179, lon_to_tile_x_eval180,
      lat_to_tile_y_eval0, lat_to_tile_y_eval45]
    decide

/-- Claim C3, amended: the tile count of `tiles_for_bounds` agrees with
`count_tiles_for_bounds` whenever the four corner tile indices are ordered
and already lie inside `[0, 2^zoom - 1]` — i.e. whenever the clamping that
only `tiles_for_bounds` performs does not fire. -/
theorem C3_tiles_count_agreement (bounds : GeoBounds) (zoom : ℕ)
    (hx0 : 0 ≤ lon_to_tile_x bounds.west zoom)
    (hx1 : lon_to_tile_x bounds.east zoom ≤ ((2 ^ zoom : ℕ) : ℤ) - 1)
    (hxm : lon_to_tile_x bounds.west zoom ≤ lon_to_tile_x bounds.east zoom)
    (hy0 : 0 ≤ lat_to_tile_y bounds.north zoom)
    (hy1 : lat_to_tile_y bounds.south zoom ≤ ((2 ^ zoom : ℕ) : ℤ) - 1)
    (hym : lat_to_tile_y bounds.north zoom ≤ lat_to_tile_y bounds.south zoom) :
    ((tiles_for_bounds bounds zoom).length : ℤ)
      = count_tiles_for_bounds bounds zoom := by
  simp only [tiles_for_bounds, count_tiles_for_bounds]
  rw [max_eq_right hx0, max_eq_right hy0, min_eq_right hx1, min_eq_right hy1]
  rw [List.length_flatten, List.map_map]
  simp only [Function.comp_def, List.length_map, List.length_range]
  rw [List.map_const', List.sum_replicate, smul_eq_mul, List.length_range]
  rw [Nat.cast_mul, Int.toNat_of_nonneg (by omega), Int.toNat_of_nonneg (by omega)]
  ring

/-- Concrete instance discharging Claim C3's amended hypotheses at the bounds
west 0, south 0, east 1, north 45 and zoom 0 (all four corner indices are 0). -/
theorem C3_tiles_count_agreement_wit :
    ((tiles_for_bounds ⟨0, 0, 1, 45⟩ 0).length : ℤ)
      = count_tiles_for_bounds ⟨0, 0, 1, 45⟩ 0 :=
  C3_tiles_count_agreement ⟨0, 0, 1, 45⟩ 0
    (by rw [lon_to_tile_x_eval0])
    (by rw [lon_to_tile_x_eval1]; norm_num)
    (by rw [lon_to_tile_x_eval0, lon_to_tile_x_eval1])
    (by rw [lat_to_tile_y_eval45])
    (by rw [lat_to_tile_y_eval0]; norm_num)
    (by rw [lat_to_tile_y_eval45, lat_to_tile_y_eval0])

/-! ### `find_missing_tiles` (Claim C5) -/

theorem foldl_append_acc (g : ℕ → List (ℕ × List TileCoord)) :
    ∀ (zs : List ℕ) (init : List (ℕ × List TileCoord)),
    zs.foldl (fun m z => m ++ g z) init = init ++ (zs.map g).flatten := by
  intro zs
  induction zs with
  | nil => intro init; simp
  | cons z zs ih =>
    intro init
    simp only [List.foldl_cons, List.map_cons, List.flatten_cons, ih,
      List.append_assoc]

theorem find_missing_tiles_eq (bounds : GeoBounds) (captured : Finset TileCoord)
    (zs : List ℕ) :
    find_missing_tiles bounds captured zs
      = (zs.map (fun zoom =>
          if missingAtZoom bounds captured zoom = ∅ then []
          else [(zoom, (missingAtZoom bounds captured zoom).sort tcLe)])).flatten := by
  unfold find_missing_tiles
  have hfn : (fun (m : List (ℕ × List TileCoord)) (zoom : ℕ) =>
      if missingAtZoom bounds captured zoom = ∅ then m
      else m ++ [(zoom, (missingAtZoom bounds captured zoom).sort tcLe)])
      = fun m zoom => m ++ (if missingAtZoom bounds captured zoom = ∅ then []
        else [(zoom, (missingAtZoom bounds captured zoom).sort tcLe)]) := by
    funext m zoom
    split <;> simp
  rw [hfn, foldl_append_acc]
  simp

theorem lookup_find_missing (bounds : GeoBounds) (captured : Finset TileCoord)
    (z : ℕ) : ∀ zs : List ℕ,
    (find_missing_tiles bounds captured zs).lookup z
      = if z ∈ zs ∧ missingAtZoom bounds captured z ≠ ∅
        then some ((missingAtZoom bounds captured z).sort tcLe) else none := by
  intro zs
  rw [find_missing_tiles_eq]
  induction zs with
  | nil => simp [List.lookup]
  | cons z' zs ih =>
    simp only [List.map_cons, List.flatten_cons]
    by_cases hz' : missingAtZoom bounds captured z' = ∅
    · rw [if_pos hz']
      rw [List.nil_append, ih]
      by_cases hzz : z = z'
      · subst hzz
        simp [hz']
      · simp [hzz]
    · rw [if_neg hz']
      rw [List.singleton_append]
      by_cases hzz : z = z'
      · subst hzz
        simp [List.lookup, hz']
      · have hbeq : (z == z') = false := beq_eq_false_iff_ne.mpr hzz
        simp only [List.lookup, hbeq, ih]
        simp [hzz]

theorem tiles_for_bounds_mem_z (bounds : GeoBounds) (zoom : ℕ) (t : TileCoord)
    (h : t ∈ tiles_for_bounds bounds zoom) : t.z = zoom := by
  simp only [tiles_for_bounds, List.mem_flatten, List.mem_map] at h
  obtain ⟨l, ⟨i, _, rfl⟩, hj⟩ := h
  simp only [List.mem_map] at hj
  obtain ⟨j, _, rfl⟩ := hj
  rfl

/-- **Claim C5**: for every bounds, captured tile set and zoom list, and every
zoom `z` in the list, `find_missing_tiles` has no entry for `z` when the
per-zoom difference is empty, and otherwise its entry for `z` is a sorted
(by the `(z, x, y)` key), duplicate-free list containing exactly the tiles
of `tiles_for_bounds bounds z` that were not captured. -/
theorem C5_find_missing_exact (bounds : GeoBounds) (captured : Finset TileCoord)
    (zoom_levels : List ℕ) (z : ℕ) (hz : z ∈ zoom_levels) :
    (missingAtZoom bounds captured z = ∅ →
      (find_missing_tiles bounds captured zoom_levels).lookup z = none) ∧
    (missingAtZoom bounds captured z ≠ ∅ →
      ∃ l, (find_missing_tiles bounds captured zoom_levels).lookup z = some l ∧
        l.Sorted tcLe ∧ l.Nodup ∧
        ∀ t, t ∈ l ↔ t ∈ tiles_for_bounds bounds z ∧ t ∉ captured) := by
  constructor
  · intro hempty
    rw [lookup_find_missing]
    simp [hempty]
  · intro hne
    refine ⟨(missingAtZoom bounds captured z).sort tcLe, ?_, ?_, ?_, ?_⟩
    · rw [lookup_find_missing]
      rw [if_pos ⟨hz, hne⟩]
    · exact Finset.sort_sorted tcLe _
    · exact Finset.sort_nodup tcLe _
    · intro t
      rw [Finset.mem_sort]
      unfold missingAtZoom
      rw [Finset.mem_sdiff, List.mem_toFinset, Finset.mem_filter]
      constructor
      · rintro ⟨hreq, hcap⟩
        exact ⟨hreq, fun hc => hcap ⟨hc, tiles_for_bounds_mem_z bounds z t hreq⟩⟩
      · rintro ⟨hreq, hcap⟩
        exact ⟨hreq, fun hc => hcap hc.1⟩

/-- Concrete instance discharging Claim C5's hypothesis: zoom 0 in the list
`[0]`, with an empty captured set. -/
theorem C5_find_missing_exact_wit :
    (missingAtZoom ⟨0, 0, 1, 45⟩ ∅ 0 = ∅ →
      (find_missing_tiles ⟨0, 0, 1, 45⟩ ∅ [0]).lookup 0 = none) ∧
    (missingAtZoom ⟨0, 0, 1, 45⟩ ∅ 0 ≠ ∅ →
      ∃ l, (find_missing_tiles ⟨0, 0, 1, 45⟩ ∅ [0]).lookup 0 = some l ∧
        l.Sorted tcLe ∧ l.Nodup ∧
        ∀ t, t ∈ l ↔ t ∈ tiles_for_bounds ⟨0, 0, 1, 45⟩ 0 ∧ t ∉ (∅ : Finset TileCoord)) :=
  C5_find_missing_exact ⟨0, 0, 1, 45⟩ ∅ [0] 0 (by simp)

/-! ### `calculate_bounds` / `get_zoom_range` (Claim C9) -/

theorem foldl_min_spec {α ι : Type} [LinearOrder α] (f : ι → α) :
    ∀ (l : List ι) (init : α),
      (l.foldl (fun a u => min a (f u)) init = init ∨
        ∃ u ∈ l, l.foldl (fun a u => min a (f u)) init = f u) ∧
      l.foldl (fun a u => min a (f u)) init ≤ init ∧
      ∀ u ∈ l, l.foldl (fun a u => min a (f u)) init ≤ f u := by
  intro l
  induction l with
  | nil => intro init; simp
  | cons t ts ih =>
    intro init
    simp only [List.foldl_cons]
    obtain ⟨hattain, hle, hbd⟩ := ih (min init (f t))
    refine ⟨?_, le_trans hle (min_le_left _ _), ?_⟩
    · rcases hattain with h | ⟨u, hu, h⟩
      · rcases min_cases init (f t) with ⟨hm, _⟩ | ⟨hm, _⟩
        · left; rw [h, hm]
        · right; exact ⟨t, List.mem_cons_self t ts, by rw [h, hm]⟩
      · right; exact ⟨u, List.mem_cons_of_mem t hu, h⟩
    · intro u hu
      rcases List.mem_cons.mp hu with h | h
      · subst h; exact le_trans hle (min_le_right _ _)
      · exact hbd u h

theorem foldl_max_spec {α ι : Type} [LinearOrder α] (f : ι → α) :
    ∀ (l : List ι) (init : α),
      (l.foldl (fun a u => max a (f u)) init = init ∨
        ∃ u ∈ l, l.foldl (fun a u => max a (f u)) init = f u) ∧
      init ≤ l.foldl (fun a u => max a (f u)) init ∧
      ∀ u ∈ l, f u ≤ l.foldl (fun a u => max a (f u)) init := by
  intro l
  induction l with
  | nil => intro init; simp
  | cons t ts ih =>
    intro init
    simp only [List.foldl_cons]
    obtain ⟨hattain, hle, hbd⟩ := ih (max init (f t))
    refine ⟨?_, le_trans (le_max_left _ _) hle, ?_⟩
    · rcases hattain with h | ⟨u, hu, h⟩
      · rcases max_cases init (f t) with ⟨hm, _⟩ | ⟨hm, _⟩
        · left; rw [h, hm]
        · right; exact ⟨t, List.mem_cons_self t ts, by rw [h, hm]⟩
      · right; exact ⟨u, List.mem_cons_of_mem t hu, h⟩
    · intro u hu
      rcases List.mem_cons.mp hu with h | h
      · subst h; exact le_trans (le_max_right _ _) hle
      · exact hbd u h

theorem foldl_bounds_tuple : ∀ (ts : List TileCoord) (i1 i2 i3 i4 : EReal),
    ts.foldl (fun acc tile =>
      (min acc.1 ((tile_to_bounds tile).west : EReal),
       min acc.2.1 ((tile_to_bounds tile).south : EReal),
       max acc.2.2.1 ((tile_to_bounds tile).east : EReal),
       max acc.2.2.2 ((tile_to_bounds tile).north : EReal))) (i1, i2, i3, i4)
    = (ts.foldl (fun a u => min a ((tile_to_bounds u).west : EReal)) i1,
       ts.foldl (fun a u => min a ((tile_to_bounds u).south : EReal)) i2,
       ts.foldl (fun a u => max a ((tile_to_bounds u).east : EReal)) i3,
       ts.foldl (fun a u => max a ((tile_to_bounds u).north : EReal)) i4) := by
  intro ts
  induction ts with
  | nil => intro i1 i2 i3 i4; rfl
  | cons t ts ih =>
    intro i1 i2 i3 i4
    simp only [List.foldl_cons]
    exact ih _ _ _ _

/-- **Claim C9**: `calculate_bounds` and `get_zoom_range` fail with the
empty-input `ValueError` exactly on the empty list; on any non-empty list
`t :: ts` both return normally, `calculate_bounds` yielding the componentwise
union — each component attained at some tile and extremal over all tiles —
and `get_zoom_range` the min and max of the tiles' zooms. -/
theorem C9_empty_input (t : TileCoord) (ts : List TileCoord) :
    calculate_bounds [] = .error (.valueErr "No tiles provided") ∧
    get_zoom_range [] = .error (.valueErr "No tiles provided") ∧
    (∃ w s e n, calculate_bounds (t :: ts) = .ok (w, s, e, n) ∧
      ((∃ u ∈ t :: ts, w = ((tile_to_bounds u).west : EReal)) ∧
        ∀ u ∈ t :: ts, w ≤ ((tile_to_bounds u).west : EReal)) ∧
      ((∃ u ∈ t :: ts, s = ((tile_to_bounds u).south : EReal)) ∧
        ∀ u ∈ t :: ts, s ≤ ((tile_to_bounds u).south : EReal)) ∧
      ((∃ u ∈ t :: ts, e = ((tile_to_bounds u).east : EReal)) ∧
        ∀ u ∈ t :: ts, ((tile_to_bounds u).east : EReal) ≤ e) ∧
      ((∃ u ∈ t :: ts, n = ((tile_to_bounds u).north : EReal)) ∧
        ∀ u ∈ t :: ts, ((tile_to_bounds u).north : EReal) ≤ n)) ∧
    (∃ zmin zmax, get_zoom_range (t :: ts) = .ok (zmin, zmax) ∧
      zmin ∈ (t :: ts).map TileCoord.z ∧ zmax ∈ (t :: ts).map TileCoord.z ∧
      ∀ u ∈ t :: ts, zmin ≤ u.z ∧ u.z ≤ zmax) := by
  refine ⟨rfl, rfl, ?_, ?_⟩
  · rw [calculate_bounds, if_neg (List.cons_ne_nil t ts)]
    rw [List.foldl_cons]
    rw [show (min (⊤ : EReal) ((tile_to_bounds t).west : EReal),
        min (⊤ : EReal) ((tile_to_bounds t).south : EReal),
        max (⊥ : EReal) ((tile_to_bounds t).east : EReal),
        max (⊥ : EReal) ((tile_to_bounds t).north : EReal))
      = (((tile_to_bounds t).west : EReal), ((tile_to_bounds t).south : EReal),
        ((tile_to_bounds t).east : EReal), ((tile_to_bounds t).north : EReal)) by
      rw [min_eq_right le_top, min_eq_right le_top, max_eq_right bot_le,
        max_eq_right bot_le]]
    rw [foldl_bounds_tuple]
    refine ⟨_, _, _, _, rfl, ?_, ?_, ?_, ?_⟩
    · obtain ⟨hattain, hle, hbd⟩ :=
        foldl_min_spec (fun u => ((tile_to_bounds u).west : EReal)) ts
          ((tile_to_bounds t).west : EReal)
      constructor
      · rcases hattain with h | ⟨u, hu, h⟩
        · exact ⟨t, List.mem_cons_self t ts, h⟩
        · exact ⟨u, List.mem_cons_of_mem t hu, h⟩
      · intro u hu
        rcases List.mem_cons.mp hu with h | h
        · subst h; exact hle
        · exact hbd u h
    · obtain ⟨hattain, hle, hbd⟩ :=
        foldl_min_spec (fun u => ((tile_to_bounds u).south : EReal)) ts
          ((tile_to_bounds t).south : EReal)
      constructor
      · rcases hattain with h | ⟨u, hu, h⟩
        · exact ⟨t, List.mem_cons_self t ts, h⟩
        · exact ⟨u, List.mem_cons_of_mem t hu, h⟩
      · intro u hu
        rcases List.mem_cons.mp hu with h | h
        · subst h; exact hle
        · exact hbd u h
    · obtain ⟨hattain, hle, hbd⟩ :=
        foldl_max_spec (fun u => ((tile_to_bounds u).east : EReal)) ts
          ((tile_to_bounds t).east : EReal)
      constructor
      · rcases hattain with h | ⟨u, hu, h⟩
        · exact ⟨t, List.mem_cons_self t ts, h⟩
        · exact ⟨u, List.mem_cons_of_mem t hu, h⟩
      · intro u hu
        rcases List.mem_cons.mp hu with h | h
        · subst h; exact hle
        · exact hbd u h
    · obtain ⟨hattain, hle, hbd⟩ :=
        foldl_max_spec (fun u => ((tile_to_bounds u).north : EReal)) ts
          ((tile_to_bounds t).north : EReal)
      constructor
      · rcases hattain with h | ⟨u, hu, h⟩
        · exact ⟨t, List.mem_cons_self t ts, h⟩
        · exact ⟨u, List.mem_cons_of_mem t hu, h⟩
      · intro u hu
        rcases List.mem_cons.mp hu with h | h
        · subst h; exact hle
        · exact hbd u h
  · rw [get_zoom_range, if_neg (List.cons_ne_nil t ts)]
    refine ⟨_, _, rfl, ?_, ?_, ?_⟩
    · rw [List.map_cons]
      show pyMin (t.z :: ts.map TileCoord.z) ∈ t.z :: ts.map TileCoord.z
      rw [pyMin]
      obtain ⟨hattain, _, _⟩ := foldl_min_spec (fun z : ℕ => z) (ts.map TileCoord.z) t.z
      rcases hattain with h | ⟨u, hu, h⟩
      · rw [h]; exact List.mem_cons_self _ _
      · rw [h]; exact List.mem_cons_of_mem _ hu
    · rw [List.map_cons]
      show pyMax (t.z :: ts.map TileCoord.z) ∈ t.z :: ts.map TileCoord.z
      rw [pyMax]
      obtain ⟨hattain, _, _⟩ := foldl_max_spec (fun z : ℕ => z) (ts.map TileCoord.z) t.z
      rcases hattain with h | ⟨u, hu, h⟩
      · rw [h]; exact List.mem_cons_self _ _
      · rw [h]; exact List.mem_cons_of_mem _ hu
    · intro u hu
      rw [List.map_cons, pyMin, pyMax]
      obtain ⟨_, hle1, hbd1⟩ := foldl_min_spec (fun z : ℕ => z) (ts.map TileCoord.z) t.z
      obtain ⟨_, hle2, hbd2⟩ := foldl_max_spec (fun z : ℕ => z) (ts.map TileCoord.z) t.z
      rcases List.mem_cons.mp hu with h | h
      · subst h; exact ⟨hle1, hle2⟩
      · exact ⟨hbd1 u.z (List.mem_map_of_mem TileCoord.z h),
          hbd2 u.z (List.mem_map_of_mem TileCoord.z h)⟩

/-! ### `analyze` / `coverage_percent` (Claim C10) -/

/-- **Claim C10**: `analyze` on an empty captured set returns normally with
an empty zoom list and empty per-zoom tables, and `coverage_percent` returns
100 whenever the required total is 0, so the percentage never divides by
zero. -/
theorem C10_empty_coverage (bounds : GeoBounds) (expand_zoom : ℤ)
    (r : CoverageReport) :
    (analyze bounds ∅ expand_zoom).zoom_levels = [] ∧
    (analyze bounds ∅ expand_zoom).tiles_by_zoom = [] ∧
    (analyze bounds ∅ expand_zoom).required_by_zoom = [] ∧
    (analyze bounds ∅ expand_zoom).missing_by_zoom = [] ∧
    (r.total_required = 0 → r.coverage_percent = 100) := by
  have hempty : ¬(Finset.image TileCoord.z (∅ : Finset TileCoord)).Nonempty := by
    simp
  refine ⟨?_, ?_, ?_, ?_, ?_⟩
  · rw [analyze, dif_neg hempty]
  · rw [analyze, dif_neg hempty]
  · rw [analyze, dif_neg hempty]
  · rw [analyze, dif_neg hempty]
  · intro h
    rw [CoverageReport.coverage_percent, if_pos h]

end Snowglobe
